import Mathlib

/-!
# cool.ng — non-blocking TCP stream event source (libdispatch back end)

A shallow embedding of `lib/src/async/gcd/event_sources.cpp`: class `stream`, and the
event handler of class `server`. The trait `is_chain` exercised by
`tests/unit/traits/task_traits.cpp` is modelled from the specification, its header
not being among the sources.

* The stream object, the per-source contexts it allocates and the calls it makes
  to the operating system, to libdispatch and to the user callback are one
  `world` value that every member function transforms.
* Every call that leaves the stream (system call, dispatch-source call, user
  callback, `delete[]`) is appended to `world.log`, in program order, so that
  "exactly once" is a count over the log.
* Results of system calls and of user callbacks are arguments of the embedded
  functions.
* `std::size_t` values are naturals reduced modulo `2^64` where the code does
  arithmetic on them.
* The atomics are embedded for one thread of control: a `compare_exchange_strong`
  whose expected value was loaded just before always finds that value.
-/

namespace CoolNg

/-! ## Data model -/

/-- Member `stream::state`. -/
inductive state where
  | disconnected
  | connecting
  | connected
  | disconnecting
  deriving DecidableEq, Repr

/-- Result of `ip::address::version()`. -/
inductive version where
  | ipv4
  | ipv6
  deriving DecidableEq, Repr

/-- Address family argument of `::socket` and of the `sockaddr` passed to `::connect`. -/
inductive family where
  | af_inet
  | af_inet6
  deriving DecidableEq, Repr

/-- Values of `cool::ng::error::errc` that the stream uses. -/
inductive errc where
  | resource_busy
  deriving DecidableEq, Repr

/-- Exceptions of `cool::ng::exception` thrown by the stream; all of them derive
from `exception::base`. -/
inductive exc where
  | socket_failure
  | connection_failure
  | runner_not_available
  | invalid_state
  | operation_failed (c : errc)
  deriving DecidableEq, Repr

/-- The `std::error_code` handed to `on_event`: `no_error()` or the `code()` of an exception. -/
inductive error_code where
  | no_error
  | code (e : exc)
  deriving DecidableEq, Repr

/-- Enumeration `cb::stream::event`. -/
inductive event where
  | connected
  | disconnected
  | failure_detected
  deriving DecidableEq, Repr

/-- Address of a source context (`context*`, `rd_context*`). -/
abbrev ptr := Nat

/-- Type `cool::ng::net::handle`, a file descriptor. -/
abbrev handle := Int

/-- Constant `cool::ng::net::invalid_handle`. -/
def invalid_handle : handle := -1

/-- How a member function ends: it returns, it throws, or it dereferences a null pointer. -/
inductive outcome where
  | returned
  | threw (e : exc)
  | null_deref
  deriving DecidableEq, Repr

/-- One call that leaves the stream object. -/
inductive effect where
  /-- Call `::socket(f, SOCK_STREAM [| SOCK_NONBLOCK], 0)`, which returned `h`. -/
  | sys_socket (f : family) (nonblock : Bool) (h : handle)
  /-- Call `ioctl(h, FIONBIO, &option)` with `option = 1`, which returned `ret`. -/
  | sys_ioctl_fionbio (h : handle) (ret : Int)
  /-- Call `::connect(h, p, size)` with a `sockaddr` of family `f`, which returned `ret`. -/
  | sys_connect (h : handle) (f : family) (ret : Int)
  /-- Call `::dup(h)`, which returned `h2`. -/
  | sys_dup (h : handle) (h2 : handle)
  /-- Call `::close(h)`. -/
  | sys_close (h : handle)
  /-- Call `::read(h, buf, count)`, which returned `ret`. -/
  | sys_read (h : handle) (buf : Nat) (count : Nat) (ret : Int)
  /-- Call `::write(h, buf, count)`, which returned `ret`. -/
  | sys_write (h : handle) (buf : Nat) (count : Nat) (ret : Int)
  /-- Allocation `new uint8_t[count]`, which returned `buf`. -/
  | new_array (count : Nat) (buf : Nat)
  /-- Release `delete [] buf`. -/
  | delete_array (buf : Nat)
  /-- Call `::dispatch_source_create` for the context at `p`, watching `h`; `rd` tells a read source. -/
  | source_create (p : ptr) (h : handle) (rd : Bool)
  /-- Call `m_source.resume()` of the context at `p`. -/
  | source_resume (p : ptr)
  /-- Call `m_source.suspend()` of the context at `p`. -/
  | source_suspend (p : ptr)
  /-- Call `m_source.cancel()` of the context at `p`. -/
  | source_cancel (p : ptr)
  /-- Call `m_source.release()` of the context at `p`. -/
  | source_release (p : ptr)
  /-- Release `delete self` of the context at `p`. -/
  | delete_context (p : ptr)
  /-- User callback `on_event(e, c)`. -/
  | on_event (e : event) (c : error_code)
  /-- User callback `on_write(data, size)`. -/
  | on_write (data : Nat) (size : Nat)
  /-- User callback `on_read(buf, size)`, with the values passed in. -/
  | on_read (buf : Nat) (size : Nat)
  deriving DecidableEq, Repr

/-- Tells the `::write` calls of the log. -/
def effect.is_sys_write : effect → Bool
  | effect.sys_write _ _ _ _ => true
  | _ => false

/-- Tells the calls on a dispatch source (`resume`, `suspend`, `cancel`) of the log. -/
def effect.is_source_call : effect → Bool
  | effect.source_resume _ => true
  | effect.source_suspend _ => true
  | effect.source_cancel _ => true
  | _ => false

/-- The dispatch source wrapper held in a context (`m_source`). Its class is declared
in `event_sources.h`; the stream only calls `resume`, `suspend`, `cancel`, `release`
and `get_data` on it, and this record keeps what those calls leave behind. -/
structure source where
  resumed : Bool
  cancelled : Bool
  deriving DecidableEq, Repr

/-- Type `stream::context`: the context of the write source. The member `m_stream`
(a shared pointer to the owning stream) is implicit, there is one stream per world. -/
structure context where
  m_handle : handle
  m_source : source
  deriving DecidableEq, Repr

/-- Type `stream::rd_context`: the context of the read source, with the read buffer. -/
structure rd_context where
  m_handle : handle
  m_source : source
  m_rd_data : Nat
  m_rd_size : Nat
  m_rd_is_mine : Bool
  deriving DecidableEq, Repr

/-- The stream object with the heap of its source contexts and the log of its calls.
`m_executor` and `m_handler` are weak pointers; the field tells whether `lock()`
yields an object. Buffer addresses are naturals, `0` is `nullptr`. -/
structure world where
  m_state : state
  m_executor : Bool
  m_handler : Bool
  m_reader : Option ptr
  m_writer : Option ptr
  m_wr_busy : Bool
  m_wr_data : Nat
  m_wr_size : Nat
  m_wr_pos : Nat
  m_buf : Nat
  m_size : Nat
  writers : ptr → Option context
  readers : ptr → Option rd_context
  fresh : ptr
  log : List effect

/-- Compile-time configuration. `LINUX_TARGET` selects the Linux branches of
`connect` and `process_connect_event`, `OSX_TARGET` the `ioctl` of the handle
overload of initialize. `wr_start` is the default argument of
`create_write_source(handle, bool start_)`, declared in `event_sources.h`. -/
structure build where
  linux_target : Bool
  osx_target : Bool
  wr_start : Bool
  deriving DecidableEq, Repr

/-- Results of the system calls made by one `stream::connect`. -/
structure connect_os where
  socket_ret : handle
  ioctl_ret : Int
  connect_ret : Int
  errno_einprogress : Bool
  deriving DecidableEq, Repr

/-- Results of the calls made while a write-readiness event is handled: `::write`
(`process_write_event`), `::dup` and `new uint8_t[]` (`process_connect_event`). -/
structure wr_event_os where
  write_ret : Int
  dup_ret : handle
  new_buf : Nat
  deriving DecidableEq, Repr

/-- What `on_read(buf, size)` leaves in its two in/out arguments; `none` when it throws. -/
abbrev on_read_result := Option (Nat × Nat)

/-! ## Helpers -/

/-- Conversion of a `ssize_t` result to `std::size_t`. -/
def to_size_t (r : Int) : Nat := (r % 2 ^ 64).toNat

/-- Appends a call to the log. -/
def world.emit (w : world) (e : effect) : world :=
  { w with log := w.log ++ [e] }

/-- The calls logged between `w` and a later world `w2`. -/
def since (w w2 : world) : List effect := w2.log.drop w.log.length

/-- The heap with address `p` set to `v`. -/
def heap_set {α : Type} (m : ptr → Option α) (p : ptr) (v : Option α) : ptr → Option α :=
  fun q => if q = p then v else m q

/-- Call `m_source.resume()` on the write context at `c`. -/
def wr_resume (w : world) (c : ptr) : world :=
  match w.writers c with
  | none => w
  | some x =>
    { w with
      writers := heap_set w.writers c (some { x with m_source := { x.m_source with resumed := true } })
      log := w.log ++ [effect.source_resume c] }

/-- Call `m_source.suspend()` on the write context at `c`. -/
def wr_suspend (w : world) (c : ptr) : world :=
  match w.writers c with
  | none => w
  | some x =>
    { w with
      writers := heap_set w.writers c (some { x with m_source := { x.m_source with resumed := false } })
      log := w.log ++ [effect.source_suspend c] }

/-- Call `m_source.cancel()` on the write context at `c`. -/
def wr_cancel (w : world) (c : ptr) : world :=
  match w.writers c with
  | none => w
  | some x =>
    { w with
      writers := heap_set w.writers c (some { x with m_source := { x.m_source with cancelled := true } })
      log := w.log ++ [effect.source_cancel c] }

/-- Call `m_source.resume()` on the read context at `r`. -/
def rd_resume (w : world) (r : ptr) : world :=
  match w.readers r with
  | none => w
  | some x =>
    { w with
      readers := heap_set w.readers r (some { x with m_source := { x.m_source with resumed := true } })
      log := w.log ++ [effect.source_resume r] }

/-- Call `m_source.suspend()` on the read context at `r`. -/
def rd_suspend (w : world) (r : ptr) : world :=
  match w.readers r with
  | none => w
  | some x =>
    { w with
      readers := heap_set w.readers r (some { x with m_source := { x.m_source with resumed := false } })
      log := w.log ++ [effect.source_suspend r] }

/-- Call `m_source.cancel()` on the read context at `r`. -/
def rd_cancel (w : world) (r : ptr) : world :=
  match w.readers r with
  | none => w
  | some x =>
    { w with
      readers := heap_set w.readers r (some { x with m_source := { x.m_source with cancelled := true } })
      log := w.log ++ [effect.source_cancel r] }

/-! ## The stream -/

/-- Constructor `stream::stream(ex_, cb_)`. -/
def stream_new (ex_ cb_ : Bool) : world :=
  { m_state := state.disconnected
    m_executor := ex_
    m_handler := cb_
    m_reader := none
    m_writer := none
    m_wr_busy := false
    m_wr_data := 0
    m_wr_size := 0
    m_wr_pos := 0
    m_buf := 0
    m_size := 0
    writers := fun _ => none
    readers := fun _ => none
    fresh := 1
    log := [] }

/-- Function `stream::create_write_source(h_, start_)`. -/
def create_write_source (w : world) (h_ : handle) (start_ : Bool) : world × outcome :=
  if w.m_executor = false then (w, outcome.threw exc.runner_not_available)
  else
    let writer := w.fresh
    let w1 : world :=
      { w with
        fresh := w.fresh + 1
        writers := heap_set w.writers writer
          (some { m_handle := h_, m_source := { resumed := false, cancelled := false } })
        log := w.log ++ [effect.source_create writer h_ false] }
    let w2 : world := { w1 with m_writer := some writer }
    if start_ then (wr_resume w2 writer, outcome.returned) else (w2, outcome.returned)

/-- Function `stream::create_read_source(h_, buf_, bufsz_)`; `new_buf` is what
`new uint8_t[bufsz_]` returns when it is called. -/
def create_read_source (w : world) (h_ : handle) (buf_ bufsz_ : Nat) (new_buf : Nat) :
    world × outcome :=
  if w.m_executor = false then (w, outcome.threw exc.runner_not_available)
  else
    let reader := w.fresh
    let w1 : world :=
      if buf_ = 0 then w.emit (effect.new_array bufsz_ new_buf) else w
    let rd : rd_context :=
      { m_handle := h_
        m_source := { resumed := false, cancelled := false }
        m_rd_data := if buf_ = 0 then new_buf else buf_
        m_rd_size := bufsz_
        m_rd_is_mine := if buf_ = 0 then true else false }
    let w2 : world :=
      { w1 with
        fresh := w1.fresh + 1
        readers := heap_set w1.readers reader (some rd)
        log := w1.log ++ [effect.source_create reader h_ true] }
    let w3 : world := { w2 with m_reader := some reader }
    (rd_resume w3 reader, outcome.returned)

/-- Function `stream::cancel_write_source(writer)`: the world, the returned flag and
the value left in the reference argument. -/
def cancel_write_source (w : world) : world × Bool × Option ptr :=
  let writer := w.m_writer
  let expect := writer
  if w.m_writer ≠ expect then (w, false, writer)
  else
    let w1 : world := { w with m_writer := none }
    match writer with
    | none => (w1, true, writer)
    | some c => (wr_cancel (wr_resume w1 c) c, true, writer)

/-- Function `stream::cancel_read_source(reader)`. -/
def cancel_read_source (w : world) : world × Bool × Option ptr :=
  let reader := w.m_reader
  let expect := reader
  if w.m_reader ≠ expect then (w, false, reader)
  else
    let w1 : world := { w with m_reader := none }
    match reader with
    | none => (w1, true, reader)
    | some r => (rd_cancel (rd_resume w1 r) r, true, reader)

/-- Function `stream::disconnect()`. -/
def disconnect (w : world) : world :=
  let w1 := (cancel_read_source w).1
  let w2 := (cancel_write_source w1).1
  { w2 with m_state := state.disconnected }

/-- Function `stream::shutdown()`. -/
def shutdown (w : world) : world :=
  let w1 := (cancel_read_source w).1
  (cancel_write_source w1).1

/-- The `try` block of `stream::connect`: the world, how the block ends, and the
value of the local variable `handle` when it ends. -/
def connect_try (b : build) (w : world) (addr_ : version) (os : connect_os) :
    world × outcome × handle :=
  let fam : family :=
    if b.linux_target then family.af_inet6
    else if addr_ = version.ipv6 then family.af_inet6 else family.af_inet
  let nonblock : Bool :=
    if b.linux_target then (if addr_ = version.ipv6 then false else true) else false
  let handle := os.socket_ret
  let w1 := w.emit (effect.sys_socket fam nonblock handle)
  if handle = invalid_handle then (w1, outcome.threw exc.socket_failure, handle)
  else
    let w2 : world :=
      if b.linux_target then w1 else w1.emit (effect.sys_ioctl_fionbio handle os.ioctl_ret)
    if b.linux_target = false ∧ os.ioctl_ret ≠ 0 then
      (w2, outcome.threw exc.socket_failure, handle)
    else
      match create_write_source w2 handle b.wr_start with
      | (w3, outcome.returned) =>
        let sa : family := if addr_ = version.ipv4 then family.af_inet else family.af_inet6
        let w4 : world := { w3 with m_state := state.connecting }
        let w5 := w4.emit (effect.sys_connect handle sa os.connect_ret)
        if os.connect_ret = -1 ∧ os.errno_einprogress = false then
          (w5, outcome.threw exc.socket_failure, handle)
        else (w5, outcome.returned, handle)
      | (w3, r) => (w3, r, handle)

/-- Function `stream::connect(addr_, port_)`. -/
def connect (b : build) (w : world) (addr_ : version) (os : connect_os) : world × outcome :=
  if w.m_state ≠ state.disconnected then (w, outcome.threw exc.invalid_state)
  else
    match connect_try b w addr_ os with
    | (w1, outcome.returned, _) => (w1, outcome.returned)
    | (w1, r, handle) =>
      match cancel_write_source w1 with
      | (w2, ok, prev) =>
        let w3 : world :=
          if ok then
            (if prev = none then
              (if handle ≠ invalid_handle then w2.emit (effect.sys_close handle) else w2)
             else w2)
          else w2
        ({ w3 with m_state := state.disconnected }, r)

/-- Function `stream::on_wr_cancel(ctx)`. -/
def on_wr_cancel (w : world) (ctx : ptr) : world :=
  match w.writers ctx with
  | none => w
  | some self =>
    let w1 := w.emit (effect.source_release ctx)
    let w2 := w1.emit (effect.sys_close self.m_handle)
    let w3 : world := { w2 with m_writer := none }
    { w3 with
      writers := heap_set w3.writers ctx none
      log := w3.log ++ [effect.delete_context ctx] }

/-- Function `stream::on_rd_cancel(ctx)`. -/
def on_rd_cancel (w : world) (ctx : ptr) : world :=
  match w.readers ctx with
  | none => w
  | some self =>
    let w1 := w.emit (effect.source_release ctx)
    let w2 := w1.emit (effect.sys_close self.m_handle)
    let w3 := if self.m_rd_is_mine then w2.emit (effect.delete_array self.m_rd_data) else w2
    let w4 : world := { w3 with m_reader := none }
    { w4 with
      readers := heap_set w4.readers ctx none
      log := w4.log ++ [effect.delete_context ctx] }

/-- Function `stream::process_disconnect_event()`. -/
def process_disconnect_event (w : world) : world :=
  if w.m_state ≠ state.connected then w
  else
    let w1 : world := { w with m_state := state.disconnected }
    let w2 := (cancel_write_source w1).1
    let w3 := (cancel_read_source w2).1
    if w3.m_handler then w3.emit (effect.on_event event.disconnected error_code.no_error)
    else w3

/-- Function `stream::on_rd_event(ctx)`: `size` is `m_source.get_data()`, `read_ret`
the result of `::read`, `cb` what `on_read` does. -/
def on_rd_event (w : world) (ctx : ptr) (size : Nat) (read_ret : Int) (cb : on_read_result) :
    world :=
  match w.readers ctx with
  | none => w
  | some self =>
    if size = 0 then process_disconnect_event w
    else
      let w1 := w.emit (effect.sys_read self.m_handle self.m_rd_data self.m_rd_size read_ret)
      let size1 := to_size_t read_ret
      let buf := self.m_rd_data
      if w1.m_handler then
        let w2 := w1.emit (effect.on_read buf size1)
        match cb with
        | none => w2
        | some (buf2, size2) =>
          if buf2 ≠ self.m_rd_data then
            let w3 := if self.m_rd_is_mine then w2.emit (effect.delete_array self.m_rd_data) else w2
            { w3 with
              readers := heap_set w3.readers ctx
                (some { self with
                  m_rd_is_mine := if self.m_rd_is_mine then false else self.m_rd_is_mine
                  m_rd_data := buf2
                  m_rd_size := size2 }) }
          else w2
      else w1

/-- Function `stream::write(data, size)`. -/
def write (w : world) (data size : Nat) : world × outcome :=
  if w.m_state ≠ state.connected then (w, outcome.threw exc.invalid_state)
  else if w.m_wr_busy ≠ false then
    (w, outcome.threw (exc.operation_failed errc.resource_busy))
  else
    let w1 : world :=
      { w with m_wr_busy := true, m_wr_data := data, m_wr_size := size, m_wr_pos := 0 }
    match w1.m_writer with
    | none => (w1, outcome.null_deref)
    | some c => (wr_resume w1 c, outcome.returned)

/-- Function `stream::process_write_event(ctx, size)`; `write_ret` is the result of `::write`. -/
def process_write_event (w : world) (ctx : ptr) (_size : Nat) (write_ret : Int) : world :=
  match w.writers ctx with
  | none => w
  | some c =>
    let res := to_size_t write_ret
    let w1 := w.emit (effect.sys_write c.m_handle (w.m_wr_data + w.m_wr_pos)
      ((w.m_wr_size + 2 ^ 64 - w.m_wr_pos) % 2 ^ 64) write_ret)
    let w2 : world := { w1 with m_wr_pos := (w1.m_wr_pos + res) % 2 ^ 64 }
    if w2.m_wr_pos ≥ w2.m_wr_size then
      let w3 := wr_suspend w2 ctx
      let w4 : world := { w3 with m_wr_busy := false }
      if w4.m_handler then w4.emit (effect.on_write w4.m_wr_data w4.m_wr_size) else w4
    else w2

/-- Function `stream::process_connect_event(ctx, size)`. -/
def process_connect_event (b : build) (w : world) (ctx : ptr) (size : Nat) (os : wr_event_os) :
    world :=
  match w.writers ctx with
  | none => w
  | some c =>
    let w1 := wr_suspend w ctx
    let failed : Bool := if b.linux_target then decide (size ≠ 0) else decide (size ≤ 2048)
    let tried : world × outcome :=
      if failed then (w1, outcome.threw exc.connection_failure)
      else
        let aux_h := os.dup_ret
        let w2 := w1.emit (effect.sys_dup c.m_handle aux_h)
        if aux_h = invalid_handle then (w2, outcome.threw exc.socket_failure)
        else
          match create_read_source w2 aux_h w2.m_buf w2.m_size os.new_buf with
          | (w3, outcome.returned) =>
            let w4 : world := { w3 with m_state := state.connected }
            (if w4.m_handler then
               w4.emit (effect.on_event event.connected error_code.no_error)
             else w4, outcome.returned)
          | (w3, r) => (w3, r)
    match tried with
    | (w2, outcome.threw e) =>
      let w3 := (cancel_write_source w2).1
      let w4 : world := { w3 with m_state := state.disconnected }
      if w4.m_handler then
        w4.emit (effect.on_event event.failure_detected (error_code.code e))
      else w4
    | (w2, _) => w2

/-- Function `stream::on_wr_event(ctx)`: `size` is `m_source.get_data()`. -/
def on_wr_event (b : build) (w : world) (ctx : ptr) (size : Nat) (os : wr_event_os) : world :=
  match w.writers ctx with
  | none => w
  | some _ =>
    match w.m_state with
    | state.connecting => process_connect_event b w ctx size os
    | state.connected => process_write_event w ctx size os.write_ret
    | state.disconnected => w
    | state.disconnecting => w

/-- Function `stream::start()`. -/
def start (w : world) : world :=
  if w.m_state ≠ state.connected then w
  else
    match w.m_reader with
    | none => w
    | some r => rd_resume w r

/-- Function `stream::stop()`. -/
def stop (w : world) : world :=
  if w.m_state ≠ state.connected then w
  else
    match w.m_reader with
    | none => w
    | some r => rd_suspend w r

/-- The overload of `stream::initialize` taking an accepted handle `h_`. -/
def init_handle (b : build) (w : world) (h_ : handle) (buf_ bufsz_ : Nat)
    (ioctl_ret : Int) (dup_ret : handle) (new_buf : Nat) : world × outcome :=
  let w1 : world := { w with m_state := state.connected }
  let w2 : world := if b.osx_target then w1.emit (effect.sys_ioctl_fionbio h_ ioctl_ret) else w1
  if b.osx_target = true ∧ ioctl_ret ≠ 0 then (w2, outcome.threw exc.socket_failure)
  else
    let rh := dup_ret
    let w3 := w2.emit (effect.sys_dup h_ rh)
    if rh = invalid_handle then (w3, outcome.threw exc.socket_failure)
    else
      match create_write_source w3 h_ false with
      | (w4, outcome.returned) => create_read_source w4 rh buf_ bufsz_ new_buf
      | (w4, r) => (w4, r)

/-- The overload of `stream::initialize` taking a remote address. -/
def init_connect (b : build) (w : world) (addr_ : version) (buf_ bufsz_ : Nat)
    (os : connect_os) : world × outcome :=
  let w1 : world := { w with m_size := bufsz_, m_buf := buf_ }
  connect b w1 addr_ os

/-- The overload of `stream::initialize` taking only the read buffer. -/
def init_buffer (w : world) (buf_ bufsz_ : Nat) : world :=
  { w with m_size := bufsz_, m_buf := buf_ }

/-! ## libdispatch -/

/-- What libdispatch does after `cancel()` of the write source at `c`: it invokes the
cancel handler of the source, once (the handler deletes the context). -/
def dispatch_wr_cancel (w : world) (c : ptr) : world :=
  match w.writers c with
  | none => w
  | some x => if x.m_source.cancelled then on_wr_cancel w c else w

/-- What libdispatch does after `cancel()` of the read source at `r`. -/
def dispatch_rd_cancel (w : world) (r : ptr) : world :=
  match w.readers r with
  | none => w
  | some x => if x.m_source.cancelled then on_rd_cancel w r else w

/-- A run of write-readiness events of the write source at `ctx`, each with its data
count and the results of the calls made while it is handled. -/
def wr_events (b : build) (w : world) (ctx : ptr) (evs : List (Nat × wr_event_os)) : world :=
  evs.foldl (fun v e => on_wr_event b v ctx e.1 e.2) w

/-- Bytes transferred by a run of write-readiness events whose `::write` calls succeed. -/
def transferred (evs : List (Nat × wr_event_os)) : Nat :=
  (evs.map (fun e => e.2.write_ret.toNat)).sum

/-- The two teardown calls of the public interface of the stream. -/
inductive teardown_call where
  | shutdown
  | disconnect
  deriving DecidableEq, Repr

/-- Runs one teardown call. -/
def teardown_call.run (k : teardown_call) (w : world) : world :=
  match k with
  | teardown_call.shutdown => CoolNg.shutdown w
  | teardown_call.disconnect => CoolNg.disconnect w

/-- A finite sequence of `shutdown()` and `disconnect()` calls. -/
def run_calls (w : world) (ks : List teardown_call) : world :=
  ks.foldl (fun v k => k.run v) w

/-- Teardown by libdispatch: it runs the cancel handlers that are due for the write
context at `c` and for the read context at `r`. -/
def run_handlers (w : world) (c r : ptr) : world :=
  dispatch_rd_cancel (dispatch_wr_cancel w c) r

/-- One step of a teardown: a call made by the application, or libdispatch running
the cancel handlers that are due. -/
inductive teardown_step where
  | call (k : teardown_call)
  | handlers
  deriving DecidableEq, Repr

/-- Runs one step of a teardown of the stream whose contexts are at `c` and `r`. -/
def teardown_step.run (c r : ptr) (st : teardown_step) (w : world) : world :=
  match st with
  | teardown_step.call k => k.run w
  | teardown_step.handlers => run_handlers w c r

/-- A finite sequence of teardown steps. -/
def run_steps (w : world) (c r : ptr) (steps : List teardown_step) : world :=
  steps.foldl (fun v st => st.run c r v) w

/-- The stream between the cancellation of both registered sources and the run of
their cancel handlers: `l0` is the log before the cancellation, `x` and `y` are the
contexts at `c` and `r` before it. -/
def sources_cancelled (l0 : List effect) (c r : ptr) (x : context) (y : rd_context)
    (w : world) : Prop :=
  w.m_reader = none ∧ w.m_writer = none ∧
  w.writers c =
    some { m_handle := x.m_handle, m_source := { resumed := true, cancelled := true } } ∧
  w.readers r = some { y with m_source := { resumed := true, cancelled := true } } ∧
  w.log = l0 ++ [effect.source_resume r, effect.source_cancel r,
    effect.source_resume c, effect.source_cancel c]

/-- The stream after the cancel handlers of both cancelled sources have run. -/
def sources_released (l0 : List effect) (c r : ptr) (x : context) (y : rd_context)
    (w : world) : Prop :=
  w.m_reader = none ∧ w.m_writer = none ∧ w.writers c = none ∧ w.readers r = none ∧
  w.log = l0 ++ ([effect.source_resume r, effect.source_cancel r,
    effect.source_resume c, effect.source_cancel c,
    effect.source_release c, effect.sys_close x.m_handle, effect.delete_context c,
    effect.source_release r, effect.sys_close y.m_handle] ++
    (if y.m_rd_is_mine then [effect.delete_array y.m_rd_data] else []) ++
    [effect.delete_context r])

/-- Tells whether the calls of `log` put the socket `h` in non-blocking mode: it was
created with `SOCK_NONBLOCK`, or switched by an `ioctl(h, FIONBIO, ..)` that returned `0`. -/
def made_nonblocking (log : List effect) (h : handle) : Bool :=
  log.any (fun e =>
    match e with
    | effect.sys_socket _ nb h2 => nb && decide (h2 = h)
    | effect.sys_ioctl_fionbio h2 ret => decide (h2 = h) && decide (ret = 0)
    | _ => false)

/-- One event of a teardown: a call made by the application, or libdispatch running
the cancel handler of the write (read) context at an address when it is due. -/
inductive teardown_event where
  | call (k : teardown_call)
  | wr_handler (p : ptr)
  | rd_handler (p : ptr)
  deriving DecidableEq, Repr

/-- Runs one event of a teardown. -/
def teardown_event.run (e : teardown_event) (w : world) : world :=
  match e with
  | teardown_event.call k => k.run w
  | teardown_event.wr_handler p => dispatch_wr_cancel w p
  | teardown_event.rd_handler p => dispatch_rd_cancel w p

/-- A finite sequence of teardown events. -/
def run_events (w : world) (evs : List teardown_event) : world :=
  evs.foldl (fun v e => e.run v) w

/-- The write context at `c` is the only write context that can be torn down: no
other write context awaits its cancel handler, and no read context holds the
descriptor `h` of the context at `c`. -/
def writer_alone (c : ptr) (h : handle) (v : world) : Prop :=
  (∀ p x2, p ≠ c → v.writers p = some x2 → x2.m_source.cancelled = false) ∧
  (∀ p y, v.readers p = some y → y.m_handle ≠ h)

/-- The read context at `r` is the only read context that can be torn down: no other
read context awaits its cancel handler, and no write context holds the descriptor `h`
of the context at `r`. -/
def reader_alone (r : ptr) (h : handle) (v : world) : Prop :=
  (∀ p y2, p ≠ r → v.readers p = some y2 → y2.m_source.cancelled = false) ∧
  (∀ p x, v.writers p = some x → x.m_handle ≠ h)

/-- Progress of the teardown of the write context `x` at `c`, with `l0` the log before
the teardown: phase 0, the writer pointer refers to the context; phase 1, the source is
cancelled and its cancel handler is due; phase 2, the handler has run. -/
def writer_phase (l0 : List effect) (c : ptr) (x : context) (n : Nat) (v : world) : Prop :=
  writer_alone c x.m_handle v ∧
  ∃ d : List effect, v.log = l0 ++ d ∧
    ((n = 0 ∧ v.m_writer = some c ∧ v.writers c = some x ∧
        d.count (effect.sys_close x.m_handle) = 0) ∨
      (n = 1 ∧ v.m_writer = none ∧
        (∃ x2, v.writers c = some x2 ∧ x2.m_handle = x.m_handle ∧
          x2.m_source.cancelled = true) ∧
        d.count (effect.sys_close x.m_handle) = 0) ∨
      (n = 2 ∧ v.m_writer = none ∧ v.writers c = none ∧
        d.count (effect.sys_close x.m_handle) = 1))

/-- Progress of the teardown of the read context `y` at `r`, with `l0` the log before
the teardown; the phases are those of `writer_phase`. -/
def reader_phase (l0 : List effect) (r : ptr) (y : rd_context) (n : Nat) (v : world) : Prop :=
  reader_alone r y.m_handle v ∧
  ∃ d : List effect, v.log = l0 ++ d ∧
    ((n = 0 ∧ v.m_reader = some r ∧ v.readers r = some y ∧
        d.count (effect.sys_close y.m_handle) = 0 ∧
        d.count (effect.delete_array y.m_rd_data) = 0) ∨
      (n = 1 ∧ v.m_reader = none ∧
        (∃ y2, v.readers r = some y2 ∧ y2.m_handle = y.m_handle ∧
          y2.m_rd_data = y.m_rd_data ∧ y2.m_rd_is_mine = y.m_rd_is_mine ∧
          y2.m_source.cancelled = true) ∧
        d.count (effect.sys_close y.m_handle) = 0 ∧
        d.count (effect.delete_array y.m_rd_data) = 0) ∨
      (n = 2 ∧ v.m_reader = none ∧ v.readers r = none ∧
        d.count (effect.sys_close y.m_handle) = 1 ∧
        d.count (effect.delete_array y.m_rd_data) = (if y.m_rd_is_mine then 1 else 0)))

/-- A write context `x` at `c` that is registered with libdispatch, not cancelled, and
that the writer pointer of the stream does not refer to; no other context holds its
descriptor, and `l0 ++ d` is the log, `d` without a close of that descriptor. -/
def writer_orphaned (l0 : List effect) (c : ptr) (x : context) (v : world) : Prop :=
  v.writers c = some x ∧ v.m_writer ≠ some c ∧
  (∀ p x2, p ≠ c → v.writers p = some x2 → x2.m_handle ≠ x.m_handle) ∧
  (∀ p y, v.readers p = some y → y.m_handle ≠ x.m_handle) ∧
  ∃ d : List effect, v.log = l0 ++ d ∧ effect.sys_close x.m_handle ∉ d

/-- The runner is released: every later `m_executor.lock()` yields no executor. -/
def drop_runner (w : world) : world := { w with m_executor := false }

/-! ## The server -/

/-- Value of `addr.ss_family` after `accept`. -/
inductive peer_family where
  | af_inet
  | af_inet6
  | other
  deriving DecidableEq, Repr

/-- What the call `cb->on_connect(clt, ca, port)` does: it returns `res` or throws. -/
inductive on_connect_result where
  | returned (res : Bool)
  | threw
  deriving DecidableEq, Repr

/-- Results of the calls of one iteration of the loop of `server::on_event`: the handle
returned by `accept`, the address family it stored, and what `on_connect` does if it
is called. -/
structure accept_os where
  clt : handle
  ss_family : peer_family
  on_connect : on_connect_result
  deriving DecidableEq, Repr

/-- One call that leaves the server object during `server::on_event`. -/
inductive server_effect where
  /-- Call `accept(m_handle, &addr, &len)`, which returned `clt`. -/
  | sys_accept (m_handle : handle) (clt : handle)
  /-- User callback `on_connect(clt, ca, port)` with an address of family `f`. -/
  | on_connect (clt : handle) (f : peer_family)
  /-- Call `::close(clt)`. -/
  | sys_close (clt : handle)
  deriving DecidableEq, Repr

/-- Tells the `accept` calls of the log. -/
def server_effect.is_accept : server_effect → Bool
  | server_effect.sys_accept _ _ => true
  | _ => false

/-- Body of the loop of `server::on_event`: `cb` tells whether `m_handler.lock()`
yielded a callback object. -/
def server_accept_one (m_handle : handle) (cb : Bool) (o : accept_os) : List server_effect :=
  let l0 := [server_effect.sys_accept m_handle o.clt]
  if cb = false then l0 ++ [server_effect.sys_close o.clt]
  else
    match o.ss_family with
    | peer_family.other => l0 ++ [server_effect.sys_close o.clt]
    | f =>
      let l1 := l0 ++ [server_effect.on_connect o.clt f]
      match o.on_connect with
      | on_connect_result.returned res =>
        if res = false then l1 ++ [server_effect.sys_close o.clt] else l1
      | on_connect_result.threw => l1 ++ [server_effect.sys_close o.clt]

/-- The loop `for (i = 0; i < size; ++i)` of `server::on_event` from index `i` with
`k` iterations left; `os i` are the results of the calls of iteration `i`. -/
def server_loop (m_handle : handle) (cb : Bool) (os : Nat → accept_os) :
    Nat → Nat → List server_effect
  | _, 0 => []
  | i, k + 1 => server_accept_one m_handle cb (os i) ++ server_loop m_handle cb os (i + 1) k

/-- Function `server::on_event(ctx)`: `size` is `m_source.get_data()`. -/
def server_on_event (m_handle : handle) (cb : Bool) (size : Nat) (os : Nat → accept_os) :
    List server_effect :=
  server_loop m_handle cb os 0 size

/-! ## Task traits -/

/-- A C++ type as a trait compares it: `void`, or another type told by its tag. -/
inductive cpp_type where
  | void
  | other (tag : Nat)
  deriving DecidableEq, Repr

/-- A task type as `is_chain` reads it: its `result_type` and its `input_type`. -/
structure task_type where
  result_type : cpp_type
  input_type : cpp_type
  deriving DecidableEq, Repr

/-- Modelled from the spec: the trait `is_chain<T1, ..., Tn>::result::value` of
`cool/ng/impl/async/task_traits.h`, which is not among the sources (only its unit test
`tests/unit/traits/task_traits.cpp` is). The specification requires of a sequential
chain that each stage's result type equals the next stage's input type, a
void-producing stage being followed by a void-consuming stage. -/
def is_chain : List task_type → Bool
  | [] => true
  | [_] => true
  | t1 :: t2 :: rest => decide (t1.result_type = t2.input_type) && is_chain (t2 :: rest)

/-- Template `C<T, Y>` of the unit test: `result_type` is `T`, `input_type` is `Y`. -/
def C (T Y : cpp_type) : task_type := { result_type := T, input_type := Y }

/-- Type `int` of the unit test. -/
def t_int : cpp_type := cpp_type.other 1

/-- Type `double` of the unit test. -/
def t_double : cpp_type := cpp_type.other 2

/-- Type `char` of the unit test. -/
def t_char : cpp_type := cpp_type.other 3

/-- Type `bool` of the unit test. -/
def t_bool : cpp_type := cpp_type.other 4

/-! ## Scenarios -/

/-- A build for macOS. -/
def osx_build : build := { linux_target := false, osx_target := true, wr_start := true }

/-- A build for Linux. -/
def linux_build : build := { linux_target := true, osx_target := false, wr_start := true }

/-- A stream created on the accepted handle `5` with a library-owned read buffer of
16 bytes: `stream::stream` followed by the handle overload of initialize, where
`::dup` returns `6` and `new uint8_t[16]` returns address `1000`. The write context is
at address `1` (handle `5`), the read context at address `2` (handle `6`). `cb_` tells
whether the callback object is alive. -/
def accepted_stream (cb_ : Bool) : world :=
  (init_handle osx_build (stream_new true cb_) 5 0 16 0 6 1000).1

/-- The write context of `accepted_stream` as it is created. -/
def accepted_writer : context :=
  { m_handle := 5, m_source := { resumed := false, cancelled := false } }

/-- A write-readiness event on a connected stream whose `::write` returns `k`. -/
def wrote (k : Int) : Nat × wr_event_os :=
  (0, { write_ret := k, dup_ret := invalid_handle, new_buf := 0 })

/-- Results of the system calls of a `connect` that stays pending: `::socket` returns
`5`, `ioctl` returns `0`, `::connect` returns `-1` with `errno` set to `EINPROGRESS`. -/
def pending_os : connect_os :=
  { socket_ret := 5, ioctl_ret := 0, connect_ret := -1, errno_einprogress := true }

/-- A stream on which `connect` to an IPv4 address is pending: `stream::stream`
followed by `connect`. The write context is at address `1` (handle `5`). -/
def connecting_stream (b : build) (cb_ : Bool) : world :=
  (connect b (stream_new true cb_) version.ipv4 pending_os).1

/-- The write context of `connecting_stream`. -/
def connecting_writer : context :=
  { m_handle := 5, m_source := { resumed := true, cancelled := false } }

/-- Results of the calls of a write-readiness event whose `::dup` returns `6`. -/
def dup_six : wr_event_os := { write_ret := 0, dup_ret := 6, new_buf := 1000 }

/-- Results of the system calls of a `connect` that the peer refuses at once:
`::connect` returns `-1` with `errno` other than `EINPROGRESS`. -/
def refused_os : connect_os :=
  { socket_ret := 5, ioctl_ret := 0, connect_ret := -1, errno_einprogress := false }

/-- A connecting stream whose runner is released while the connect is pending. -/
def orphaned_connecting_stream (b : build) (cb_ : Bool) : world :=
  drop_runner (connecting_stream b cb_)

/-- Results of the system calls of a second `connect` that stays pending: `::socket`
returns `7`. -/
def pending_os_again : connect_os :=
  { socket_ret := 7, ioctl_ret := 0, connect_ret := -1, errno_einprogress := true }

/-- The accepted stream after `disconnect()` and a new `connect` issued before the
cancel handlers of the old sources have run: the old write context is still at address
`1` (cancelled, handle `5`), the new write context is at address `3` (handle `7`). -/
def reconnecting_stream : world :=
  (connect osx_build (disconnect (accepted_stream true)) version.ipv4 pending_os_again).1

/-! ## Basic facts -/

theorem since_of_log_eq (w w2 : world) (d : List effect) (h : w2.log = w.log ++ d) :
    since w w2 = d := by
  simp [since, h]

theorem since_self (w : world) : since w w = [] := by
  simp [since]

theorem to_size_t_of_nonneg (r : Int) (h0 : 0 ≤ r) (h1 : r.toNat < 2 ^ 64) :
    to_size_t r = r.toNat := by
  unfold to_size_t
  have h2 : r < 2 ^ 64 := by omega
  rw [Int.emod_eq_of_lt h0 h2]

theorem to_size_t_neg_one : to_size_t (-1) = 2 ^ 64 - 1 := by
  decide

theorem transferred_nil : transferred [] = 0 := rfl

theorem transferred_cons (e : Nat × wr_event_os) (evs : List (Nat × wr_event_os)) :
    transferred (e :: evs) = e.2.write_ret.toNat + transferred evs := by
  simp [transferred]

theorem wr_events_nil (b : build) (w : world) (c : ptr) : wr_events b w c [] = w := rfl

theorem wr_events_cons (b : build) (w : world) (c : ptr) (e : Nat × wr_event_os)
    (evs : List (Nat × wr_event_os)) :
    wr_events b w c (e :: evs) = wr_events b (on_wr_event b w c e.1 e.2) c evs := rfl

/-! ## The write path -/

theorem on_wr_event_connected (b : build) (w : world) (c : ptr) (x : context) (size : Nat)
    (os : wr_event_os) (hs : w.m_state = state.connected) (hx : w.writers c = some x) :
    on_wr_event b w c size os = process_write_event w c size os.write_ret := by
  simp [on_wr_event, hx, hs]

/-- An event whose `::write` leaves the offset below the size only moves the offset. -/
theorem process_write_event_short (w : world) (c : ptr) (x : context) (size : Nat) (r : Int)
    (hx : w.writers c = some x) (h0 : 0 ≤ r) (hsz : w.m_wr_size < 2 ^ 64)
    (hlt : w.m_wr_pos + r.toNat < w.m_wr_size) :
    process_write_event w c size r =
      { w with
        m_wr_pos := w.m_wr_pos + r.toNat
        log := w.log ++ [effect.sys_write x.m_handle (w.m_wr_data + w.m_wr_pos)
          ((w.m_wr_size + 2 ^ 64 - w.m_wr_pos) % 2 ^ 64) r] } := by
  have h1 : to_size_t r = r.toNat := to_size_t_of_nonneg r h0 (by omega)
  have h2 : (w.m_wr_pos + r.toNat) % 2 ^ 64 = w.m_wr_pos + r.toNat :=
    Nat.mod_eq_of_lt (by omega)
  simp only [process_write_event, hx, world.emit, h1, h2]
  rw [if_neg (by simp only [ge_iff_le, not_le]; exact hlt)]

/-- An event whose `::write` brings the offset to the size completes the write. -/
theorem process_write_event_done (w : world) (c : ptr) (x : context) (size : Nat) (r : Int)
    (hx : w.writers c = some x) (h0 : 0 ≤ r)
    (heq : w.m_wr_pos + r.toNat = w.m_wr_size) (hsz : w.m_wr_size < 2 ^ 64) :
    process_write_event w c size r =
      { w with
        m_wr_pos := w.m_wr_size
        m_wr_busy := false
        writers := heap_set w.writers c
          (some { x with m_source := { x.m_source with resumed := false } })
        log := w.log ++ ([effect.sys_write x.m_handle (w.m_wr_data + w.m_wr_pos)
          ((w.m_wr_size + 2 ^ 64 - w.m_wr_pos) % 2 ^ 64) r, effect.source_suspend c] ++
          if w.m_handler then [effect.on_write w.m_wr_data w.m_wr_size] else []) } := by
  have h1 : to_size_t r = r.toNat := to_size_t_of_nonneg r h0 (by omega)
  have h2 : (w.m_wr_pos + r.toNat) % 2 ^ 64 = w.m_wr_size := by
    rw [heq]; exact Nat.mod_eq_of_lt hsz
  simp only [process_write_event, hx, world.emit, h1, h2, wr_suspend]
  cases hh : w.m_handler <;> simp

theorem heap_set_same {α : Type} (m : ptr → Option α) (p : ptr) (v : Option α) :
    heap_set m p v p = v := by
  simp [heap_set]

theorem heap_set_other {α : Type} (m : ptr → Option α) (p q : ptr) (v : Option α)
    (h : q ≠ p) : heap_set m p v q = m q := by
  simp [heap_set, h]

/-- A run of events that all leave the offset below the size only moves the offset
and logs `::write` calls. -/
theorem wr_events_short (b : build) (c : ptr) (x : context) :
    ∀ (evs : List (Nat × wr_event_os)) (w : world),
      w.m_state = state.connected → w.writers c = some x → w.m_wr_size < 2 ^ 64 →
      (∀ e ∈ evs, 0 ≤ e.2.write_ret) →
      (evs ≠ [] → w.m_wr_pos + transferred evs < w.m_wr_size) →
      ∃ d : List effect,
        wr_events b w c evs =
          { w with m_wr_pos := w.m_wr_pos + transferred evs, log := w.log ++ d } ∧
        ∀ e ∈ d, e.is_sys_write = true := by
  intro evs
  induction evs with
  | nil =>
    intro w _ _ _ _ _
    exact ⟨[], by simp [wr_events_nil, transferred_nil], by simp⟩
  | cons e rest ih =>
    intro w hs hx hsz hk hlt
    have hlt2 := hlt (by simp)
    rw [transferred_cons] at hlt2
    have he : 0 ≤ e.2.write_ret := hk e (by simp)
    rw [wr_events_cons, on_wr_event_connected b w c x e.1 e.2 hs hx,
      process_write_event_short w c x e.1 e.2.write_ret hx he hsz (by omega)]
    obtain ⟨d, hd, hall⟩ := ih
      { w with
        m_wr_pos := w.m_wr_pos + e.2.write_ret.toNat
        log := w.log ++ [effect.sys_write x.m_handle (w.m_wr_data + w.m_wr_pos)
          ((w.m_wr_size + 2 ^ 64 - w.m_wr_pos) % 2 ^ 64) e.2.write_ret] }
      hs hx hsz
      (fun e2 h2 => hk e2 (by simp [h2])) (fun _ => by
        show w.m_wr_pos + e.2.write_ret.toNat + transferred rest < w.m_wr_size
        omega)
    refine ⟨effect.sys_write x.m_handle (w.m_wr_data + w.m_wr_pos)
      ((w.m_wr_size + 2 ^ 64 - w.m_wr_pos) % 2 ^ 64) e.2.write_ret :: d, ?_, ?_⟩
    · rw [hd, transferred_cons]
      simp [Nat.add_assoc]
    · intro e2 h2
      rcases List.mem_cons.mp h2 with h3 | h3
      · rw [h3]; rfl
      · exact hall e2 h3

/-- An accepted `write`. -/
theorem write_accepted (w : world) (c : ptr) (x : context) (data n : Nat)
    (hs : w.m_state = state.connected) (hb : w.m_wr_busy = false)
    (hw : w.m_writer = some c) (hx : w.writers c = some x) :
    write w data n =
      ({ w with
         m_wr_busy := true
         m_wr_data := data
         m_wr_size := n
         m_wr_pos := 0
         writers := heap_set w.writers c
           (some { x with m_source := { x.m_source with resumed := true } })
         log := w.log ++ [effect.source_resume c] }, outcome.returned) := by
  simp [write, hs, hb, hw, wr_resume, hx]

theorem write_not_connected (w : world) (data n : Nat) (hs : w.m_state ≠ state.connected) :
    write w data n = (w, outcome.threw exc.invalid_state) := by
  simp [write, hs]

theorem write_busy (w : world) (data n : Nat) (hs : w.m_state = state.connected)
    (hb : w.m_wr_busy = true) :
    write w data n = (w, outcome.threw (exc.operation_failed errc.resource_busy)) := by
  simp [write, hs, hb]

/-- A run of write-readiness events on an in-flight write: `evs` are the events that
leave the offset below the size, `last` is the event that reaches it. -/
theorem wr_events_complete (b : build) (c : ptr) (x : context) (w : world)
    (evs : List (Nat × wr_event_os)) (last : Nat × wr_event_os)
    (hs : w.m_state = state.connected) (hx : w.writers c = some x)
    (hsz : w.m_wr_size < 2 ^ 64)
    (hk : ∀ e ∈ evs, 0 ≤ e.2.write_ret) (hl : 0 ≤ last.2.write_ret)
    (hlt : evs ≠ [] → w.m_wr_pos + transferred evs < w.m_wr_size)
    (hsum : w.m_wr_pos + transferred evs + last.2.write_ret.toNat = w.m_wr_size) :
    ∃ (d : List effect) (e1 : effect),
      (∀ e ∈ d, e.is_sys_write = true) ∧ e1.is_sys_write = true ∧
      wr_events b w c evs =
        { w with m_wr_pos := w.m_wr_pos + transferred evs, log := w.log ++ d } ∧
      on_wr_event b (wr_events b w c evs) c last.1 last.2 =
        { w with
          m_wr_pos := w.m_wr_size
          m_wr_busy := false
          writers := heap_set w.writers c
            (some { x with m_source := { x.m_source with resumed := false } })
          log := w.log ++ (d ++ ([e1, effect.source_suspend c] ++
            if w.m_handler then [effect.on_write w.m_wr_data w.m_wr_size] else [])) } := by
  obtain ⟨d, hd, hall⟩ := wr_events_short b c x evs w hs hx hsz hk hlt
  refine ⟨d, effect.sys_write x.m_handle (w.m_wr_data + (w.m_wr_pos + transferred evs))
      ((w.m_wr_size + 2 ^ 64 - (w.m_wr_pos + transferred evs)) % 2 ^ 64) last.2.write_ret,
    hall, rfl, hd, ?_⟩
  have h1 := on_wr_event_connected b (wr_events b w c evs) c x last.1 last.2
    (by rw [hd]; exact hs) (by rw [hd]; exact hx)
  have h2 := process_write_event_done (wr_events b w c evs) c x last.1 last.2.write_ret
    (by rw [hd]; exact hx) hl (by rw [hd]; exact hsum) (by rw [hd]; exact hsz)
  rw [h1, h2, hd]
  simp

theorem count_of_sys_writes (d : List effect) (hall : ∀ e ∈ d, e.is_sys_write = true)
    (a : effect) (ha : a.is_sys_write = false) : d.count a = 0 := by
  apply List.count_eq_zero_of_not_mem
  intro h
  have h2 := hall a h
  rw [ha] at h2
  exact Bool.noConfusion h2

theorem not_mem_of_sys_writes (d : List effect) (hall : ∀ e ∈ d, e.is_sys_write = true)
    (a : effect) (ha : a.is_sys_write = false) : a ∉ d := by
  intro h
  have h2 := hall a h
  rw [ha] at h2
  exact Bool.noConfusion h2

theorem heap_set_set {α : Type} (m : ptr → Option α) (p : ptr) (u v : Option α) :
    heap_set (heap_set m p u) p v = heap_set m p v := by
  funext q
  simp only [heap_set]
  split <;> rfl

/-! ## Cancellation of the sources -/

theorem world_eta_writer (w : world) (h : w.m_writer = none) :
    { w with m_writer := none } = w := by
  cases w
  simp_all

theorem world_eta_reader (w : world) (h : w.m_reader = none) :
    { w with m_reader := none } = w := by
  cases w
  simp_all

theorem cancel_write_source_none (w : world) (h : w.m_writer = none) :
    cancel_write_source w = (w, true, none) := by
  simp [cancel_write_source, h, world_eta_writer w h]

theorem cancel_write_source_dangling (w : world) (c : ptr) (hw : w.m_writer = some c)
    (hx : w.writers c = none) :
    cancel_write_source w = ({ w with m_writer := none }, true, some c) := by
  simp [cancel_write_source, hw, wr_resume, wr_cancel, hx]

theorem cancel_write_source_some (w : world) (c : ptr) (x : context)
    (hw : w.m_writer = some c) (hx : w.writers c = some x) :
    cancel_write_source w =
      ({ w with
         m_writer := none
         writers := heap_set w.writers c
           (some { m_handle := x.m_handle, m_source := { resumed := true, cancelled := true } })
         log := w.log ++ [effect.source_resume c, effect.source_cancel c] }, true, some c) := by
  simp [cancel_write_source, hw, wr_resume, wr_cancel, hx, heap_set_same, heap_set_set]

theorem cancel_read_source_none (w : world) (h : w.m_reader = none) :
    cancel_read_source w = (w, true, none) := by
  simp [cancel_read_source, h, world_eta_reader w h]

theorem cancel_read_source_dangling (w : world) (r : ptr) (hw : w.m_reader = some r)
    (hx : w.readers r = none) :
    cancel_read_source w = ({ w with m_reader := none }, true, some r) := by
  simp [cancel_read_source, hw, rd_resume, rd_cancel, hx]

theorem cancel_read_source_some (w : world) (r : ptr) (x : rd_context)
    (hw : w.m_reader = some r) (hx : w.readers r = some x) :
    cancel_read_source w =
      ({ w with
         m_reader := none
         readers := heap_set w.readers r
           (some { x with m_source := { resumed := true, cancelled := true } })
         log := w.log ++ [effect.source_resume r, effect.source_cancel r] }, true, some r) := by
  simp [cancel_read_source, hw, rd_resume, rd_cancel, hx, heap_set_same, heap_set_set]

/-- Whatever the stream, `cancel_write_source` clears the writer pointer, logs only
calls on a dispatch source, and touches nothing but the write contexts. -/
theorem cancel_write_source_frame (w : world) :
    ∃ d : List effect, (∀ e ∈ d, e.is_source_call = true) ∧
      (cancel_write_source w).1 =
        { w with
          m_writer := none
          writers := (cancel_write_source w).1.writers
          log := w.log ++ d } := by
  rcases hw : w.m_writer with _ | c
  · refine ⟨[], by simp, ?_⟩
    rw [cancel_write_source_none w hw]
    cases w
    simp_all
  · rcases hx : w.writers c with _ | x
    · refine ⟨[], by simp, ?_⟩
      rw [cancel_write_source_dangling w c hw hx]
      simp
    · refine ⟨[effect.source_resume c, effect.source_cancel c], ?_, ?_⟩
      · intro e he
        simp at he
        rcases he with he | he <;> rw [he] <;> rfl
      · rw [cancel_write_source_some w c x hw hx]

/-- Whatever the stream, `cancel_read_source` clears the reader pointer, logs only
calls on a dispatch source, and touches nothing but the read contexts. -/
theorem cancel_read_source_frame (w : world) :
    ∃ d : List effect, (∀ e ∈ d, e.is_source_call = true) ∧
      (cancel_read_source w).1 =
        { w with
          m_reader := none
          readers := (cancel_read_source w).1.readers
          log := w.log ++ d } := by
  rcases hw : w.m_reader with _ | r
  · refine ⟨[], by simp, ?_⟩
    rw [cancel_read_source_none w hw]
    cases w
    simp_all
  · rcases hx : w.readers r with _ | x
    · refine ⟨[], by simp, ?_⟩
      rw [cancel_read_source_dangling w r hw hx]
      simp
    · refine ⟨[effect.source_resume r, effect.source_cancel r], ?_, ?_⟩
      · intro e he
        simp at he
        rcases he with he | he <;> rw [he] <;> rfl
      · rw [cancel_read_source_some w r x hw hx]

/-- Function `disconnect` clears both pointers, sets the state to disconnected and
logs only calls on the dispatch sources. -/
theorem disconnect_frame (w : world) :
    ∃ d : List effect, (∀ e ∈ d, e.is_source_call = true) ∧
      disconnect w =
        { w with
          m_state := state.disconnected
          m_reader := none
          m_writer := none
          readers := (disconnect w).readers
          writers := (disconnect w).writers
          log := w.log ++ d } := by
  obtain ⟨d1, h1, e1⟩ := cancel_read_source_frame w
  obtain ⟨d2, h2, e2⟩ := cancel_write_source_frame (cancel_read_source w).1
  refine ⟨d1 ++ d2, ?_, ?_⟩
  · intro e he
    rcases List.mem_append.mp he with h | h
    · exact h1 e h
    · exact h2 e h
  · have h3 : disconnect w =
        { (cancel_write_source (cancel_read_source w).1).1 with
          m_state := state.disconnected } := rfl
    rw [h3]
    rw [e2]
    rw [e1]
    simp

/-- Function `shutdown` clears both pointers, leaves the state as it is and logs only
calls on the dispatch sources. -/
theorem shutdown_frame (w : world) :
    ∃ d : List effect, (∀ e ∈ d, e.is_source_call = true) ∧
      shutdown w =
        { w with
          m_reader := none
          m_writer := none
          readers := (shutdown w).readers
          writers := (shutdown w).writers
          log := w.log ++ d } := by
  obtain ⟨d1, h1, e1⟩ := cancel_read_source_frame w
  obtain ⟨d2, h2, e2⟩ := cancel_write_source_frame (cancel_read_source w).1
  refine ⟨d1 ++ d2, ?_, ?_⟩
  · intro e he
    rcases List.mem_append.mp he with h | h
    · exact h1 e h
    · exact h2 e h
  · have h3 : shutdown w = (cancel_write_source (cancel_read_source w).1).1 := rfl
    rw [h3]
    rw [e2]
    rw [e1]
    simp

/-- In state connected `process_disconnect_event` clears both pointers, sets the state
to disconnected and logs calls on the dispatch sources followed by the `disconnected`
event when the callback object is alive. -/
theorem process_disconnect_event_frame (w : world) (hs : w.m_state = state.connected) :
    ∃ d : List effect, (∀ e ∈ d, e.is_source_call = true) ∧
      process_disconnect_event w =
        { w with
          m_state := state.disconnected
          m_reader := none
          m_writer := none
          readers := (process_disconnect_event w).readers
          writers := (process_disconnect_event w).writers
          log := w.log ++ (d ++
            if w.m_handler then [effect.on_event event.disconnected error_code.no_error]
            else []) } := by
  obtain ⟨d1, h1, e1⟩ := cancel_write_source_frame { w with m_state := state.disconnected }
  obtain ⟨d2, h2, e2⟩ := cancel_read_source_frame
    (cancel_write_source { w with m_state := state.disconnected }).1
  refine ⟨d1 ++ d2, ?_, ?_⟩
  · intro e he
    rcases List.mem_append.mp he with h | h
    · exact h1 e h
    · exact h2 e h
  · have h3 : process_disconnect_event w =
        if (cancel_read_source
            (cancel_write_source { w with m_state := state.disconnected }).1).1.m_handler then
          (cancel_read_source
            (cancel_write_source { w with m_state := state.disconnected }).1).1.emit
              (effect.on_event event.disconnected error_code.no_error)
        else
          (cancel_read_source
            (cancel_write_source { w with m_state := state.disconnected }).1).1 := by
      simp [process_disconnect_event, hs]
    rw [h3]
    rw [e2]
    rw [e1]
    cases hh : w.m_handler <;> simp [world.emit]

theorem process_disconnect_event_skip (w : world) (hs : w.m_state ≠ state.connected) :
    process_disconnect_event w = w := by
  simp [process_disconnect_event, hs]

theorem on_rd_event_eof (w : world) (r : ptr) (y : rd_context) (read_ret : Int)
    (cb : on_read_result) (hy : w.readers r = some y) :
    on_rd_event w r 0 read_ret cb = process_disconnect_event w := by
  simp [on_rd_event, hy]

theorem on_rd_event_eof_skip (w : world) (r : ptr) (read_ret : Int) (cb : on_read_result)
    (hs : w.m_state ≠ state.connected) : on_rd_event w r 0 read_ret cb = w := by
  cases hy : w.readers r <;> simp [on_rd_event, hy, process_disconnect_event_skip w hs]

theorem count_of_source_calls (d : List effect) (hall : ∀ e ∈ d, e.is_source_call = true)
    (a : effect) (ha : a.is_source_call = false) : d.count a = 0 := by
  apply List.count_eq_zero_of_not_mem
  intro h
  have h2 := hall a h
  rw [ha] at h2
  exact Bool.noConfusion h2

theorem not_mem_of_source_calls (d : List effect) (hall : ∀ e ∈ d, e.is_source_call = true)
    (a : effect) (ha : a.is_source_call = false) : a ∉ d := by
  intro h
  have h2 := hall a h
  rw [ha] at h2
  exact Bool.noConfusion h2

theorem dispatch_wr_cancel_state (w : world) (c : ptr) :
    (dispatch_wr_cancel w c).m_state = w.m_state := by
  unfold dispatch_wr_cancel
  rcases hx : w.writers c with _ | x
  · rfl
  · cases hc : x.m_source.cancelled
    · simp [hc]
    · simp [on_wr_cancel, hx, world.emit, hc]

theorem dispatch_rd_cancel_state (w : world) (r : ptr) :
    (dispatch_rd_cancel w r).m_state = w.m_state := by
  unfold dispatch_rd_cancel
  rcases hx : w.readers r with _ | x
  · rfl
  · cases hc : x.m_source.cancelled
    · simp [hc]
    · cases hm : x.m_rd_is_mine <;> simp [on_rd_cancel, hx, world.emit, hm, hc]

/-! ## Teardown -/

theorem shutdown_eq (w : world) :
    shutdown w = (cancel_write_source (cancel_read_source w).1).1 := rfl

theorem disconnect_eq (w : world) :
    disconnect w =
      { (cancel_write_source (cancel_read_source w).1).1 with
        m_state := state.disconnected } := rfl

theorem run_shutdown (w : world) : teardown_call.shutdown.run w = shutdown w := rfl

theorem run_disconnect (w : world) : teardown_call.disconnect.run w = disconnect w := rfl

theorem shutdown_idle (w : world) (hr : w.m_reader = none) (hw : w.m_writer = none) :
    shutdown w = w := by
  have h1 : (cancel_read_source w).1 = w := by rw [cancel_read_source_none w hr]
  rw [shutdown_eq, h1, cancel_write_source_none w hw]

theorem disconnect_idle (w : world) (hr : w.m_reader = none) (hw : w.m_writer = none) :
    disconnect w = { w with m_state := state.disconnected } := by
  have h1 : (cancel_read_source w).1 = w := by rw [cancel_read_source_none w hr]
  rw [disconnect_eq, h1, cancel_write_source_none w hw]

/-- A teardown call on a stream whose two pointers are null only sets the state. -/
theorem call_idle (w : world) (k : teardown_call) (hr : w.m_reader = none)
    (hw : w.m_writer = none) :
    (k.run w).m_reader = none ∧ (k.run w).m_writer = none ∧
    (k.run w).writers = w.writers ∧ (k.run w).readers = w.readers ∧
    (k.run w).log = w.log := by
  cases k
  · rw [run_shutdown, shutdown_idle w hr hw]
    exact ⟨hr, hw, rfl, rfl, rfl⟩
  · rw [run_disconnect, disconnect_idle w hr hw]
    exact ⟨hr, hw, rfl, rfl, rfl⟩

theorem run_calls_cons (w : world) (k : teardown_call) (ks : List teardown_call) :
    run_calls w (k :: ks) = run_calls (k.run w) ks := rfl

theorem run_steps_cons (w : world) (c r : ptr) (st : teardown_step)
    (steps : List teardown_step) :
    run_steps w c r (st :: steps) = run_steps (st.run c r w) c r steps := rfl

/-- Calls made after both pointers are null log nothing. -/
theorem run_calls_idle :
    ∀ (ks : List teardown_call) (w : world), w.m_reader = none → w.m_writer = none →
      (run_calls w ks).log = w.log ∧ (run_calls w ks).m_reader = none ∧
      (run_calls w ks).m_writer = none := by
  intro ks
  induction ks with
  | nil => intro w hr hw; exact ⟨rfl, hr, hw⟩
  | cons k rest ih =>
    intro w hr hw
    obtain ⟨h1, h2, _, _, h5⟩ := call_idle w k hr hw
    rw [run_calls_cons]
    obtain ⟨h6, h7, h8⟩ := ih (k.run w) h1 h2
    exact ⟨by rw [h6, h5], h7, h8⟩

theorem call_clears (w : world) (k : teardown_call) :
    (k.run w).m_reader = none ∧ (k.run w).m_writer = none := by
  cases k
  · obtain ⟨d, _, hd⟩ := shutdown_frame w
    rw [run_shutdown, hd]
    exact ⟨rfl, rfl⟩
  · obtain ⟨d, _, hd⟩ := disconnect_frame w
    rw [run_disconnect, hd]
    exact ⟨rfl, rfl⟩

/-- The first call on a stream with both sources registered cancels both. -/
theorem call_cancels (w : world) (k : teardown_call) (c r : ptr) (x : context)
    (y : rd_context) (hw : w.m_writer = some c) (hx : w.writers c = some x)
    (hr : w.m_reader = some r) (hy : w.readers r = some y) :
    sources_cancelled w.log c r x y (k.run w) := by
  have h1 := cancel_read_source_some w r y hr hy
  have h2 := cancel_write_source_some (cancel_read_source w).1 c x
    (by rw [h1]; exact hw) (by rw [h1]; exact hx)
  cases k
  · rw [run_shutdown, shutdown_eq, h2, h1]
    simp [sources_cancelled, heap_set]
  · rw [run_disconnect, disconnect_eq, h2, h1]
    simp [sources_cancelled, heap_set]

theorem call_when_cancelled (l0 : List effect) (w : world) (k : teardown_call) (c r : ptr)
    (x : context) (y : rd_context) (h : sources_cancelled l0 c r x y w) :
    sources_cancelled l0 c r x y (k.run w) := by
  obtain ⟨h1, h2, h3, h4, h5⟩ := h
  obtain ⟨g1, g2, g3, g4, g5⟩ := call_idle w k h1 h2
  exact ⟨g1, g2, by rw [g3]; exact h3, by rw [g4]; exact h4, by rw [g5]; exact h5⟩

theorem call_when_released (l0 : List effect) (w : world) (k : teardown_call) (c r : ptr)
    (x : context) (y : rd_context) (h : sources_released l0 c r x y w) :
    sources_released l0 c r x y (k.run w) := by
  obtain ⟨h1, h2, h3, h4, h5⟩ := h
  obtain ⟨g1, g2, g3, g4, g5⟩ := call_idle w k h1 h2
  exact ⟨g1, g2, by rw [g3]; exact h3, by rw [g4]; exact h4, by rw [g5]; exact h5⟩

/-- The cancel handlers of two cancelled sources close the handles, release a
library-owned buffer and delete the contexts. -/
theorem handlers_when_cancelled (l0 : List effect) (w : world) (c r : ptr)
    (x : context) (y : rd_context) (h : sources_cancelled l0 c r x y w) :
    sources_released l0 c r x y (run_handlers w c r) := by
  obtain ⟨h1, h2, h3, h4, h5⟩ := h
  cases hm : y.m_rd_is_mine <;>
    simp [run_handlers, dispatch_wr_cancel, dispatch_rd_cancel, on_wr_cancel, on_rd_cancel,
      h3, h4, h5, hm, world.emit, sources_released, heap_set, h1]

theorem handlers_when_released (l0 : List effect) (w : world) (c r : ptr)
    (x : context) (y : rd_context) (h : sources_released l0 c r x y w) :
    run_handlers w c r = w := by
  obtain ⟨_, _, h3, h4, _⟩ := h
  simp [run_handlers, dispatch_wr_cancel, dispatch_rd_cancel, h3, h4]

theorem handlers_when_registered (w : world) (c r : ptr) (x : context) (y : rd_context)
    (hx : w.writers c = some x) (hxc : x.m_source.cancelled = false)
    (hy : w.readers r = some y) (hyc : y.m_source.cancelled = false) :
    run_handlers w c r = w := by
  simp [run_handlers, dispatch_wr_cancel, dispatch_rd_cancel, hx, hy, hxc, hyc]

/-- Whatever the order of calls and handler runs, a stream with both sources
registered is untouched until the first call, then has both sources cancelled, then
released. -/
theorem run_steps_phase (w0 : world) (c r : ptr) (x : context) (y : rd_context)
    (hw : w0.m_writer = some c) (hx : w0.writers c = some x)
    (hxc : x.m_source.cancelled = false)
    (hy : w0.readers r = some y) (hr : w0.m_reader = some r)
    (hyc : y.m_source.cancelled = false) :
    ∀ (steps : List teardown_step) (w : world),
      (w = w0 ∨ sources_cancelled w0.log c r x y w ∨ sources_released w0.log c r x y w) →
      ((w = w0 ∧ run_steps w c r steps = w0 ∧ ∀ k, teardown_step.call k ∉ steps) ∨
        sources_cancelled w0.log c r x y (run_steps w c r steps) ∨
        sources_released w0.log c r x y (run_steps w c r steps)) := by
  intro steps
  induction steps with
  | nil =>
    intro w h
    rcases h with h | h
    · exact Or.inl ⟨h, h, by simp⟩
    · exact Or.inr h
  | cons st rest ih =>
    intro w h
    rw [run_steps_cons]
    have hpass : ∀ v : world,
        (sources_cancelled w0.log c r x y v ∨ sources_released w0.log c r x y v) →
        (sources_cancelled w0.log c r x y (run_steps v c r rest) ∨
          sources_released w0.log c r x y (run_steps v c r rest)) := by
      intro v hv
      rcases ih v (Or.inr hv) with ⟨h1, _, _⟩ | h3
      · exfalso
        rw [h1] at hv
        rcases hv with hv | hv
        · have h4 := hv.2.1
          rw [hw] at h4
          exact Option.noConfusion h4
        · have h4 := hv.2.1
          rw [hw] at h4
          exact Option.noConfusion h4
      · exact h3
    cases st with
    | call k =>
      refine Or.inr (hpass _ ?_)
      rcases h with h | h | h
      · rw [h]; exact Or.inl (call_cancels w0 k c r x y hw hx hr hy)
      · exact Or.inl (call_when_cancelled _ w k c r x y h)
      · exact Or.inr (call_when_released _ w k c r x y h)
    | handlers =>
      rcases h with h | h | h
      · have h1 : teardown_step.handlers.run c r w = w0 := by
          rw [h]; exact handlers_when_registered w0 c r x y hx hxc hy hyc
        rw [h1]
        rcases ih w0 (Or.inl rfl) with ⟨_, h3, h4⟩ | h3
        · refine Or.inl ⟨h, h3, ?_⟩
          intro k hk
          rcases List.mem_cons.mp hk with h5 | h5
          · exact teardown_step.noConfusion h5
          · exact h4 k h5
        · exact Or.inr h3
      · exact Or.inr (hpass _ (Or.inr (handlers_when_cancelled _ w c r x y h)))
      · refine Or.inr (hpass _ (Or.inr ?_))
        show sources_released w0.log c r x y (run_handlers w c r)
        rw [handlers_when_released _ w c r x y h]
        exact h

/-- One teardown call cancels each source at most once. -/
theorem call_cancels_once (w : world) (k : teardown_call)
    (hdist : ∀ p, w.m_reader = some p → w.m_writer ≠ some p) (p : ptr) :
    (since w (k.run w)).count (effect.source_cancel p) ≤ 1 := by
  have key : (since w (shutdown w)).count (effect.source_cancel p) ≤ 1 ∧
      (disconnect w).log = (shutdown w).log := by
    refine ⟨?_, rfl⟩
    rcases hr : w.m_reader with _ | r
    · have h1 : (cancel_read_source w).1 = w := by rw [cancel_read_source_none w hr]
      rw [shutdown_eq, h1]
      rcases hw : w.m_writer with _ | c
      · rw [cancel_write_source_none w hw, since_self]
        simp
      · rcases hx : w.writers c with _ | x
        · rw [cancel_write_source_dangling w c hw hx]
          simp [since]
        · rw [cancel_write_source_some w c x hw hx]
          simp [since, List.count_cons]
          split <;> simp
    · have hne : w.m_writer ≠ some r := hdist r hr
      rcases hy : w.readers r with _ | y
      · have h1 := cancel_read_source_dangling w r hr hy
        rcases hw : w.m_writer with _ | c
        · rw [shutdown_eq, cancel_write_source_none _ (by rw [h1]; exact hw), h1]
          simp [since]
        · rcases hx : w.writers c with _ | x
          · rw [shutdown_eq, cancel_write_source_dangling _ c (by rw [h1]; exact hw)
              (by rw [h1]; exact hx), h1]
            simp [since]
          · rw [shutdown_eq, cancel_write_source_some _ c x (by rw [h1]; exact hw)
              (by rw [h1]; exact hx), h1]
            simp [since, List.count_cons]
            split <;> simp
      · have h1 := cancel_read_source_some w r y hr hy
        rcases hw : w.m_writer with _ | c
        · rw [shutdown_eq, cancel_write_source_none _ (by rw [h1]; exact hw), h1]
          simp [since, List.count_cons]
          split <;> simp
        · have hcr : c ≠ r := by
            intro h
            rw [hw, h] at hne
            exact hne rfl
          rcases hx : w.writers c with _ | x
          · rw [shutdown_eq, cancel_write_source_dangling _ c (by rw [h1]; exact hw)
              (by rw [h1]; exact hx), h1]
            simp [since, List.count_cons]
            split <;> simp
          · rw [shutdown_eq, cancel_write_source_some _ c x (by rw [h1]; exact hw)
              (by rw [h1]; exact hx), h1]
            simp [since, List.count_cons]
            by_cases h2 : r = p
            · have h3 : c ≠ p := by rw [← h2]; exact hcr
              simp [h2, h3]
            · simp [h2]
              split <;> simp
  cases k
  · rw [run_shutdown]
    exact key.1
  · rw [run_disconnect]
    have h2 : since w (disconnect w) = since w (shutdown w) := by
      simp only [since, key.2]
    rw [h2]
    exact key.1

/-! ## Teardown, one source at a time -/

theorem run_events_cons (w : world) (e : teardown_event) (evs : List teardown_event) :
    run_events w (e :: evs) = run_events (e.run w) evs := rfl

theorem call_log (v : world) (k : teardown_call) :
    ∃ d : List effect, (∀ e ∈ d, e.is_source_call = true) ∧ (k.run v).log = v.log ++ d := by
  cases k
  · obtain ⟨d, h1, h2⟩ := shutdown_frame v
    exact ⟨d, h1, by rw [run_shutdown, h2]⟩
  · obtain ⟨d, h1, h2⟩ := disconnect_frame v
    exact ⟨d, h1, by rw [run_disconnect, h2]⟩

theorem call_heaps_eq (v : world) (k : teardown_call) :
    (k.run v).writers = (cancel_write_source (cancel_read_source v).1).1.writers ∧
    (k.run v).readers = (cancel_write_source (cancel_read_source v).1).1.readers := by
  cases k <;> exact ⟨rfl, rfl⟩

/-- A teardown call changes the write contexts only at the address the writer pointer
refers to, where it marks the source resumed and cancelled. -/
theorem call_writers (v : world) (k : teardown_call) (p : ptr) :
    (k.run v).writers p = v.writers p ∨
    (v.m_writer = some p ∧ ∃ x0, v.writers p = some x0 ∧
      (k.run v).writers p =
        some { m_handle := x0.m_handle, m_source := { resumed := true, cancelled := true } }) := by
  rw [(call_heaps_eq v k).1]
  obtain ⟨d1, _, e1⟩ := cancel_read_source_frame v
  have hm : (cancel_read_source v).1.m_writer = v.m_writer := by rw [e1]
  have hh : (cancel_read_source v).1.writers = v.writers := by rw [e1]
  rcases hw : v.m_writer with _ | c
  · rw [cancel_write_source_none _ (by rw [hm]; exact hw), hh]
    exact Or.inl rfl
  · rcases hx : v.writers c with _ | x
    · rw [cancel_write_source_dangling _ c (by rw [hm]; exact hw) (by rw [hh]; exact hx)]
      exact Or.inl (by show (cancel_read_source v).1.writers p = _; rw [hh])
    · rw [cancel_write_source_some _ c x (by rw [hm]; exact hw) (by rw [hh]; exact hx)]
      by_cases hp : p = c
      · refine Or.inr ⟨by rw [hp], x, by rw [hp]; exact hx, ?_⟩
        show heap_set (cancel_read_source v).1.writers c _ p = _
        rw [hp, heap_set_same]
      · refine Or.inl ?_
        show heap_set (cancel_read_source v).1.writers c _ p = _
        rw [heap_set_other _ _ _ _ hp, hh]

/-- A teardown call changes the read contexts only at the address the reader pointer
refers to, where it marks the source resumed and cancelled. -/
theorem call_readers (v : world) (k : teardown_call) (p : ptr) :
    (k.run v).readers p = v.readers p ∨
    (v.m_reader = some p ∧ ∃ y0, v.readers p = some y0 ∧
      (k.run v).readers p =
        some { y0 with m_source := { resumed := true, cancelled := true } }) := by
  rw [(call_heaps_eq v k).2]
  obtain ⟨d2, _, e2⟩ := cancel_write_source_frame (cancel_read_source v).1
  have hh : (cancel_write_source (cancel_read_source v).1).1.readers =
      (cancel_read_source v).1.readers := by rw [e2]
  rw [hh]
  rcases hr : v.m_reader with _ | r
  · rw [cancel_read_source_none v hr]
    exact Or.inl rfl
  · rcases hy : v.readers r with _ | y
    · rw [cancel_read_source_dangling v r hr hy]
      exact Or.inl rfl
    · rw [cancel_read_source_some v r y hr hy]
      by_cases hp : p = r
      · refine Or.inr ⟨by rw [hp], y, by rw [hp]; exact hy, ?_⟩
        show heap_set v.readers r _ p = _
        rw [hp, heap_set_same]
      · refine Or.inl ?_
        show heap_set v.readers r _ p = _
        rw [heap_set_other _ _ _ _ hp]

/-- What libdispatch does with the write context at `p`: nothing, or the cancel handler
of a cancelled context. -/
theorem dispatch_wr_cancel_cases (v : world) (p : ptr) :
    dispatch_wr_cancel v p = v ∨
    ∃ x0, v.writers p = some x0 ∧ x0.m_source.cancelled = true ∧
      dispatch_wr_cancel v p =
        { v with
          m_writer := none
          writers := heap_set v.writers p none
          log := v.log ++ [effect.source_release p, effect.sys_close x0.m_handle,
            effect.delete_context p] } := by
  rcases hx : v.writers p with _ | x0
  · exact Or.inl (by simp [dispatch_wr_cancel, hx])
  · cases hc : x0.m_source.cancelled
    · exact Or.inl (by simp [dispatch_wr_cancel, hx, hc])
    · exact Or.inr ⟨x0, rfl, hc, by simp [dispatch_wr_cancel, hx, hc, on_wr_cancel, world.emit]⟩

/-- What libdispatch does with the read context at `p`: nothing, or the cancel handler
of a cancelled context. -/
theorem dispatch_rd_cancel_cases (v : world) (p : ptr) :
    dispatch_rd_cancel v p = v ∨
    ∃ y0, v.readers p = some y0 ∧ y0.m_source.cancelled = true ∧
      dispatch_rd_cancel v p =
        { v with
          m_reader := none
          readers := heap_set v.readers p none
          log := v.log ++ ([effect.source_release p, effect.sys_close y0.m_handle] ++
            (if y0.m_rd_is_mine then [effect.delete_array y0.m_rd_data] else []) ++
            [effect.delete_context p]) } := by
  rcases hy : v.readers p with _ | y0
  · exact Or.inl (by simp [dispatch_rd_cancel, hy])
  · cases hc : y0.m_source.cancelled
    · exact Or.inl (by simp [dispatch_rd_cancel, hy, hc])
    · refine Or.inr ⟨y0, rfl, hc, ?_⟩
      cases hm : y0.m_rd_is_mine <;>
        simp [dispatch_rd_cancel, hy, hc, on_rd_cancel, world.emit, hm]

theorem call_writers_at (v : world) (k : teardown_call) (c : ptr) (x : context)
    (hw : v.m_writer = some c) (hx : v.writers c = some x) :
    (k.run v).writers c =
      some { m_handle := x.m_handle, m_source := { resumed := true, cancelled := true } } := by
  rw [(call_heaps_eq v k).1]
  obtain ⟨d1, _, e1⟩ := cancel_read_source_frame v
  have hm : (cancel_read_source v).1.m_writer = v.m_writer := by rw [e1]
  have hh : (cancel_read_source v).1.writers = v.writers := by rw [e1]
  rw [cancel_write_source_some _ c x (by rw [hm]; exact hw) (by rw [hh]; exact hx)]
  exact heap_set_same _ _ _

theorem call_readers_at (v : world) (k : teardown_call) (r : ptr) (y : rd_context)
    (hr : v.m_reader = some r) (hy : v.readers r = some y) :
    (k.run v).readers r =
      some { y with m_source := { resumed := true, cancelled := true } } := by
  rw [(call_heaps_eq v k).2]
  obtain ⟨d2, _, e2⟩ := cancel_write_source_frame (cancel_read_source v).1
  have hh : (cancel_write_source (cancel_read_source v).1).1.readers =
      (cancel_read_source v).1.readers := by rw [e2]
  rw [hh, cancel_read_source_some v r y hr hy]
  exact heap_set_same _ _ _

theorem count_append_zero (d d2 : List effect) (a : effect) (n : Nat)
    (h1 : d.count a = n) (h2 : d2.count a = 0) : (d ++ d2).count a = n := by
  rw [List.count_append, h1, h2]
  rfl

/-- A change of the stream that leaves the writer pointer and the write contexts as
they are, keeps the descriptors of the read contexts and logs no close of the
descriptor of the context at `c` keeps the phase of its teardown. -/
theorem writer_phase_frame (l0 : List effect) (c : ptr) (x : context) (n : Nat)
    (v v2 : world) (h : writer_phase l0 c x n v)
    (hw : v2.m_writer = v.m_writer) (hws : v2.writers = v.writers)
    (hrs : ∀ p y2, v2.readers p = some y2 → ∃ y, v.readers p = some y ∧ y2.m_handle = y.m_handle)
    (d2 : List effect) (hlog : v2.log = v.log ++ d2)
    (hd2 : d2.count (effect.sys_close x.m_handle) = 0) :
    writer_phase l0 c x n v2 := by
  obtain ⟨⟨ha1, ha2⟩, d, hd, hph⟩ := h
  refine ⟨⟨?_, ?_⟩, d ++ d2, by rw [hlog, hd, List.append_assoc], ?_⟩
  · intro p x2 hp hx2
    rw [hws] at hx2
    exact ha1 p x2 hp hx2
  · intro p y2 hy2
    obtain ⟨y, hy, he⟩ := hrs p y2 hy2
    rw [he]
    exact ha2 p y hy
  · rw [hw, hws]
    rcases hph with ⟨h0, h1, h2, h3⟩ | ⟨h0, h1, h2, h3⟩ | ⟨h0, h1, h2, h3⟩
    · exact Or.inl ⟨h0, h1, h2, count_append_zero _ _ _ _ h3 hd2⟩
    · exact Or.inr (Or.inl ⟨h0, h1, h2, count_append_zero _ _ _ _ h3 hd2⟩)
    · exact Or.inr (Or.inr ⟨h0, h1, h2, count_append_zero _ _ _ _ h3 hd2⟩)

/-- One teardown event moves the teardown of the write context at `c` forward or
leaves it where it is; a call moves it past phase 0. -/
theorem writer_phase_step (l0 : List effect) (c : ptr) (x : context)
    (hxc : x.m_source.cancelled = false) (n : Nat) (v : world)
    (h : writer_phase l0 c x n v) (e : teardown_event) :
    ∃ n2, n ≤ n2 ∧ ((∃ k, e = teardown_event.call k) → 1 ≤ n2) ∧
      writer_phase l0 c x n2 (e.run v) := by
  cases e with
  | call k =>
    have hrun : (teardown_event.call k).run v = k.run v := rfl
    rw [hrun]
    obtain ⟨d2, hsrc, hlog⟩ := call_log v k
    have hd2 : d2.count (effect.sys_close x.m_handle) = 0 :=
      count_of_source_calls d2 hsrc (effect.sys_close x.m_handle) rfl
    have hrs : ∀ p y2, (k.run v).readers p = some y2 →
        ∃ y, v.readers p = some y ∧ y2.m_handle = y.m_handle := by
      intro p y2 hy2
      rcases call_readers v k p with h1 | ⟨_, y0, h1, h2⟩
      · rw [h1] at hy2
        exact ⟨y2, hy2, rfl⟩
      · rw [h2] at hy2
        cases hy2
        exact ⟨y0, h1, rfl⟩
    obtain ⟨⟨ha1, ha2⟩, d, hd, hph⟩ := h
    rcases hph with ⟨h0, h1, h2, h3⟩ | hrest
    · refine ⟨1, by omega, fun _ => Nat.le_refl 1, ⟨?_, ?_⟩, d ++ d2,
        by show (k.run v).log = _; rw [hlog, hd, List.append_assoc], ?_⟩
      · intro p x2 hp hx2
        rcases call_writers v k p with h4 | ⟨h4, _⟩
        · rw [h4] at hx2
          exact ha1 p x2 hp hx2
        · rw [h1] at h4
          cases h4
          exact absurd rfl hp
      · intro p y2 hy2
        obtain ⟨y, hy, he⟩ := hrs p y2 hy2
        rw [he]
        exact ha2 p y hy
      · refine Or.inr (Or.inl ⟨rfl, (call_clears v k).2, ⟨_, call_writers_at v k c x h1 h2, rfl, rfl⟩,
          count_append_zero _ _ _ _ h3 hd2⟩)
    · have hwn : v.m_writer = none := by
        rcases hrest with ⟨_, h1, _⟩ | ⟨_, h1, _⟩ <;> exact h1
      have hws : (k.run v).writers = v.writers := by
        funext p
        rcases call_writers v k p with h4 | ⟨h4, _⟩
        · exact h4
        · rw [hwn] at h4
          cases h4
      have hge : 1 ≤ n := by
        rcases hrest with ⟨h0, _⟩ | ⟨h0, _⟩ <;> omega
      exact ⟨n, Nat.le_refl n, fun _ => hge,
        writer_phase_frame l0 c x n v (k.run v) ⟨⟨ha1, ha2⟩, d, hd, Or.inr hrest⟩
          (by rw [(call_clears v k).2, hwn]) hws hrs d2 hlog hd2⟩
  | wr_handler p =>
    have hrun : (teardown_event.wr_handler p).run v = dispatch_wr_cancel v p := rfl
    rw [hrun]
    have hnc : ∀ q, ¬ ∃ k, teardown_event.wr_handler q = teardown_event.call k := by
      rintro q ⟨k, hk⟩
      cases hk
    rcases dispatch_wr_cancel_cases v p with h1 | ⟨x0, hx0, hc0, h1⟩
    · rw [h1]
      exact ⟨n, Nat.le_refl n, fun h2 => absurd h2 (hnc p), h⟩
    · rw [h1]
      obtain ⟨⟨ha1, ha2⟩, d, hd, hph⟩ := h
      have hpc : p = c := by
        by_contra hne
        have h2 := ha1 p x0 hne hx0
        rw [hc0] at h2
        cases h2
      rw [hpc] at hx0
      rw [hpc]
      rcases hph with ⟨_, _, hw2, _⟩ | ⟨h0, hw1, ⟨x2, hw2, hh2, hc2⟩, h3⟩ | ⟨_, _, hw2, _⟩
      · rw [hw2] at hx0
        cases hx0
        rw [hxc] at hc0
        cases hc0
      · rw [hw2] at hx0
        cases hx0
        refine ⟨2, by omega, fun h2 => absurd h2 (hnc c), ⟨?_, ha2⟩,
          d ++ [effect.source_release c, effect.sys_close x0.m_handle, effect.delete_context c],
          ?_, Or.inr (Or.inr ⟨rfl, rfl, heap_set_same _ _ _, ?_⟩)⟩
        · intro q x3 hq hx3
          have hx4 : heap_set v.writers c none q = some x3 := hx3
          rw [heap_set_other _ _ _ _ hq] at hx4
          exact ha1 q x3 hq hx4
        · show v.log ++ _ = _
          rw [hd, List.append_assoc]
        · rw [List.count_append, h3, hh2]
          simp [List.count_cons]
      · rw [hw2] at hx0
        cases hx0
  | rd_handler p =>
    refine ⟨n, Nat.le_refl n, ?_, ?_⟩
    · rintro ⟨k, hk⟩
      cases hk
    · rcases dispatch_rd_cancel_cases v p with h1 | ⟨y0, hy0, hc0, h1⟩
      · show writer_phase l0 c x n (dispatch_rd_cancel v p)
        rw [h1]
        exact h
      · show writer_phase l0 c x n (dispatch_rd_cancel v p)
        rw [h1]
        refine writer_phase_frame l0 c x n v _ h rfl rfl ?_ _ rfl ?_
        · intro q y2 hy2
          have hy3 : heap_set v.readers p none q = some y2 := hy2
          by_cases hq : q = p
          · rw [hq, heap_set_same] at hy3
            cases hy3
          · rw [heap_set_other _ _ _ _ hq] at hy3
            exact ⟨y2, hy3, rfl⟩
        · have hne : y0.m_handle ≠ x.m_handle := h.1.2 p y0 hy0
          cases hm : y0.m_rd_is_mine <;> simp [List.count_cons, hne]

theorem dispatch_wr_cancel_due (v : world) (c : ptr) (x0 : context)
    (hx : v.writers c = some x0) (hc : x0.m_source.cancelled = true) :
    dispatch_wr_cancel v c =
      { v with
        m_writer := none
        writers := heap_set v.writers c none
        log := v.log ++ [effect.source_release c, effect.sys_close x0.m_handle,
          effect.delete_context c] } := by
  simp [dispatch_wr_cancel, hx, hc, on_wr_cancel, world.emit]

theorem dispatch_rd_cancel_due (v : world) (r : ptr) (y0 : rd_context)
    (hy : v.readers r = some y0) (hc : y0.m_source.cancelled = true) :
    dispatch_rd_cancel v r =
      { v with
        m_reader := none
        readers := heap_set v.readers r none
        log := v.log ++ ([effect.source_release r, effect.sys_close y0.m_handle] ++
          (if y0.m_rd_is_mine then [effect.delete_array y0.m_rd_data] else []) ++
          [effect.delete_context r]) } := by
  cases hm : y0.m_rd_is_mine <;>
    simp [dispatch_rd_cancel, hy, hc, on_rd_cancel, world.emit, hm]

/-- A run of teardown events moves the teardown of the write context at `c` forward;
once it holds a call, the teardown is past phase 0. -/
theorem writer_phase_run (l0 : List effect) (c : ptr) (x : context)
    (hxc : x.m_source.cancelled = false) :
    ∀ (evs : List teardown_event) (n : Nat) (v : world), writer_phase l0 c x n v →
      ∃ n2, n ≤ n2 ∧ ((∃ k, teardown_event.call k ∈ evs) → 1 ≤ n2) ∧
        writer_phase l0 c x n2 (run_events v evs) := by
  intro evs
  induction evs with
  | nil =>
    intro n v h
    exact ⟨n, Nat.le_refl n, fun ⟨k, hk⟩ => absurd hk (List.not_mem_nil _), h⟩
  | cons e rest ih =>
    intro n v h
    obtain ⟨n1, h1, h2, h3⟩ := writer_phase_step l0 c x hxc n v h e
    obtain ⟨n2, h4, h5, h6⟩ := ih n1 (e.run v) h3
    refine ⟨n2, by omega, ?_, by rw [run_events_cons]; exact h6⟩
    rintro ⟨k, hk⟩
    rcases List.mem_cons.mp hk with h7 | h7
    · have := h2 ⟨k, h7.symm⟩
      omega
    · exact h5 ⟨k, h7⟩

/-- Past phase 0, the cancel handler of the write context at `c` ends its teardown. -/
theorem writer_phase_finish (l0 : List effect) (c : ptr) (x : context) (n : Nat) (v : world)
    (h : writer_phase l0 c x n v) (hn : 1 ≤ n) :
    writer_phase l0 c x 2 (dispatch_wr_cancel v c) := by
  obtain ⟨⟨ha1, ha2⟩, d, hd, hph⟩ := h
  rcases hph with ⟨h0, _⟩ | ⟨h0, hw1, ⟨x2, hw2, hh2, hc2⟩, h3⟩ | ⟨h0, hw1, hw2, h3⟩
  · omega
  · rw [dispatch_wr_cancel_due v c x2 hw2 hc2]
    refine ⟨⟨?_, ha2⟩,
      d ++ [effect.source_release c, effect.sys_close x2.m_handle, effect.delete_context c],
      ?_, Or.inr (Or.inr ⟨rfl, rfl, heap_set_same _ _ _, ?_⟩)⟩
    · intro q x3 hq hx3
      have hx4 : heap_set v.writers c none q = some x3 := hx3
      rw [heap_set_other _ _ _ _ hq] at hx4
      exact ha1 q x3 hq hx4
    · show v.log ++ _ = _
      rw [hd, List.append_assoc]
    · rw [List.count_append, h3, hh2]
      simp [List.count_cons]
  · have h1 : dispatch_wr_cancel v c = v := by simp [dispatch_wr_cancel, hw2]
    rw [h1]
    exact ⟨⟨ha1, ha2⟩, d, hd, Or.inr (Or.inr ⟨rfl, hw1, hw2, h3⟩)⟩

/-- A change of the stream that leaves the reader pointer and the read contexts as
they are, keeps the descriptors of the write contexts and logs neither a close of the
descriptor nor a release of the buffer of the context at `r` keeps the phase of its
teardown. -/
theorem reader_phase_frame (l0 : List effect) (r : ptr) (y : rd_context) (n : Nat)
    (v v2 : world) (h : reader_phase l0 r y n v)
    (hr : v2.m_reader = v.m_reader) (hrs : v2.readers = v.readers)
    (hws : ∀ p x2, v2.writers p = some x2 → ∃ x, v.writers p = some x ∧ x2.m_handle = x.m_handle)
    (d2 : List effect) (hlog : v2.log = v.log ++ d2)
    (hd2 : d2.count (effect.sys_close y.m_handle) = 0)
    (hd3 : d2.count (effect.delete_array y.m_rd_data) = 0) :
    reader_phase l0 r y n v2 := by
  obtain ⟨⟨ha1, ha2⟩, d, hd, hph⟩ := h
  refine ⟨⟨?_, ?_⟩, d ++ d2, by rw [hlog, hd, List.append_assoc], ?_⟩
  · intro p y2 hp hy2
    rw [hrs] at hy2
    exact ha1 p y2 hp hy2
  · intro p x2 hx2
    obtain ⟨x, hx, he⟩ := hws p x2 hx2
    rw [he]
    exact ha2 p x hx
  · rw [hr, hrs]
    rcases hph with ⟨h0, h1, h2, h3, h4⟩ | ⟨h0, h1, h2, h3, h4⟩ | ⟨h0, h1, h2, h3, h4⟩
    · exact Or.inl ⟨h0, h1, h2, count_append_zero _ _ _ _ h3 hd2,
        count_append_zero _ _ _ _ h4 hd3⟩
    · exact Or.inr (Or.inl ⟨h0, h1, h2, count_append_zero _ _ _ _ h3 hd2,
        count_append_zero _ _ _ _ h4 hd3⟩)
    · exact Or.inr (Or.inr ⟨h0, h1, h2, count_append_zero _ _ _ _ h3 hd2,
        count_append_zero _ _ _ _ h4 hd3⟩)

/-- One teardown event moves the teardown of the read context at `r` forward or
leaves it where it is; a call moves it past phase 0. -/
theorem reader_phase_step (l0 : List effect) (r : ptr) (y : rd_context)
    (hyc : y.m_source.cancelled = false) (n : Nat) (v : world)
    (h : reader_phase l0 r y n v) (e : teardown_event) :
    ∃ n2, n ≤ n2 ∧ ((∃ k, e = teardown_event.call k) → 1 ≤ n2) ∧
      reader_phase l0 r y n2 (e.run v) := by
  cases e with
  | call k =>
    have hrun : (teardown_event.call k).run v = k.run v := rfl
    rw [hrun]
    obtain ⟨d2, hsrc, hlog⟩ := call_log v k
    have hd2 : d2.count (effect.sys_close y.m_handle) = 0 :=
      count_of_source_calls d2 hsrc (effect.sys_close y.m_handle) rfl
    have hd3 : d2.count (effect.delete_array y.m_rd_data) = 0 :=
      count_of_source_calls d2 hsrc (effect.delete_array y.m_rd_data) rfl
    have hws : ∀ p x2, (k.run v).writers p = some x2 →
        ∃ x, v.writers p = some x ∧ x2.m_handle = x.m_handle := by
      intro p x2 hx2
      rcases call_writers v k p with h1 | ⟨_, x0, h1, h2⟩
      · rw [h1] at hx2
        exact ⟨x2, hx2, rfl⟩
      · rw [h2] at hx2
        cases hx2
        exact ⟨x0, h1, rfl⟩
    obtain ⟨⟨ha1, ha2⟩, d, hd, hph⟩ := h
    rcases hph with ⟨h0, h1, h2, h3, h4⟩ | hrest
    · refine ⟨1, by omega, fun _ => Nat.le_refl 1, ⟨?_, ?_⟩, d ++ d2,
        by show (k.run v).log = _; rw [hlog, hd, List.append_assoc], ?_⟩
      · intro p y2 hp hy2
        rcases call_readers v k p with h5 | ⟨h5, _⟩
        · rw [h5] at hy2
          exact ha1 p y2 hp hy2
        · rw [h1] at h5
          cases h5
          exact absurd rfl hp
      · intro p x2 hx2
        obtain ⟨x, hx, he⟩ := hws p x2 hx2
        rw [he]
        exact ha2 p x hx
      · refine Or.inr (Or.inl ⟨rfl, (call_clears v k).1,
          ⟨_, call_readers_at v k r y h1 h2, rfl, rfl, rfl, rfl⟩,
          count_append_zero _ _ _ _ h3 hd2, count_append_zero _ _ _ _ h4 hd3⟩)
    · have hrn : v.m_reader = none := by
        rcases hrest with ⟨_, h1, _⟩ | ⟨_, h1, _⟩ <;> exact h1
      have hrs : (k.run v).readers = v.readers := by
        funext p
        rcases call_readers v k p with h5 | ⟨h5, _⟩
        · exact h5
        · rw [hrn] at h5
          cases h5
      have hge : 1 ≤ n := by
        rcases hrest with ⟨h0, _⟩ | ⟨h0, _⟩ <;> omega
      exact ⟨n, Nat.le_refl n, fun _ => hge,
        reader_phase_frame l0 r y n v (k.run v) ⟨⟨ha1, ha2⟩, d, hd, Or.inr hrest⟩
          (by rw [(call_clears v k).1, hrn]) hrs hws d2 hlog hd2 hd3⟩
  | rd_handler p =>
    have hrun : (teardown_event.rd_handler p).run v = dispatch_rd_cancel v p := rfl
    rw [hrun]
    have hnc : ∀ q, ¬ ∃ k, teardown_event.rd_handler q = teardown_event.call k := by
      rintro q ⟨k, hk⟩
      cases hk
    rcases dispatch_rd_cancel_cases v p with h1 | ⟨y0, hy0, hc0, h1⟩
    · rw [h1]
      exact ⟨n, Nat.le_refl n, fun h2 => absurd h2 (hnc p), h⟩
    · rw [h1]
      obtain ⟨⟨ha1, ha2⟩, d, hd, hph⟩ := h
      have hpr : p = r := by
        by_contra hne
        have h2 := ha1 p y0 hne hy0
        rw [hc0] at h2
        cases h2
      rw [hpr] at hy0
      rw [hpr]
      rcases hph with ⟨_, _, hw2, _⟩ |
        ⟨h0, hw1, ⟨y2, hw2, hh2, hdt, hmn, hc2⟩, h3, h4⟩ | ⟨_, _, hw2, _⟩
      · rw [hw2] at hy0
        cases hy0
        rw [hyc] at hc0
        cases hc0
      · rw [hw2] at hy0
        cases hy0
        refine ⟨2, by omega, fun h2 => absurd h2 (hnc r), ⟨?_, ha2⟩,
          d ++ ([effect.source_release r, effect.sys_close y0.m_handle] ++
            (if y0.m_rd_is_mine then [effect.delete_array y0.m_rd_data] else []) ++
            [effect.delete_context r]),
          ?_, Or.inr (Or.inr ⟨rfl, rfl, heap_set_same _ _ _, ?_, ?_⟩)⟩
        · intro q y3 hq hy3
          have hy4 : heap_set v.readers r none q = some y3 := hy3
          rw [heap_set_other _ _ _ _ hq] at hy4
          exact ha1 q y3 hq hy4
        · show v.log ++ _ = _
          rw [hd, List.append_assoc]
        · rw [List.count_append, h3, hh2]
          cases hm : y0.m_rd_is_mine <;> simp [List.count_cons]
        · rw [List.count_append, h4, hdt, ← hmn]
          cases hm : y0.m_rd_is_mine <;> simp [List.count_cons]
      · rw [hw2] at hy0
        cases hy0
  | wr_handler p =>
    have hrun : (teardown_event.wr_handler p).run v = dispatch_wr_cancel v p := rfl
    rw [hrun]
    refine ⟨n, Nat.le_refl n, ?_, ?_⟩
    · rintro ⟨k, hk⟩
      cases hk
    · rcases dispatch_wr_cancel_cases v p with h1 | ⟨x0, hx0, hc0, h1⟩
      · rw [h1]
        exact h
      · rw [h1]
        refine reader_phase_frame l0 r y n v _ h rfl rfl ?_ _ rfl ?_ ?_
        · intro q x2 hx2
          have hx3 : heap_set v.writers p none q = some x2 := hx2
          by_cases hq : q = p
          · rw [hq, heap_set_same] at hx3
            cases hx3
          · rw [heap_set_other _ _ _ _ hq] at hx3
            exact ⟨x2, hx3, rfl⟩
        · have hne : x0.m_handle ≠ y.m_handle := h.1.2 p x0 hx0
          simp [List.count_cons, hne]
        · simp [List.count_cons]

/-- A run of teardown events moves the teardown of the read context at `r` forward;
once it holds a call, the teardown is past phase 0. -/
theorem reader_phase_run (l0 : List effect) (r : ptr) (y : rd_context)
    (hyc : y.m_source.cancelled = false) :
    ∀ (evs : List teardown_event) (n : Nat) (v : world), reader_phase l0 r y n v →
      ∃ n2, n ≤ n2 ∧ ((∃ k, teardown_event.call k ∈ evs) → 1 ≤ n2) ∧
        reader_phase l0 r y n2 (run_events v evs) := by
  intro evs
  induction evs with
  | nil =>
    intro n v h
    exact ⟨n, Nat.le_refl n, fun ⟨k, hk⟩ => absurd hk (List.not_mem_nil _), h⟩
  | cons e rest ih =>
    intro n v h
    obtain ⟨n1, h1, h2, h3⟩ := reader_phase_step l0 r y hyc n v h e
    obtain ⟨n2, h4, h5, h6⟩ := ih n1 (e.run v) h3
    refine ⟨n2, by omega, ?_, by rw [run_events_cons]; exact h6⟩
    rintro ⟨k, hk⟩
    rcases List.mem_cons.mp hk with h7 | h7
    · have := h2 ⟨k, h7.symm⟩
      omega
    · exact h5 ⟨k, h7⟩

/-- Past phase 0, the cancel handler of the read context at `r` ends its teardown. -/
theorem reader_phase_finish (l0 : List effect) (r : ptr) (y : rd_context) (n : Nat) (v : world)
    (h : reader_phase l0 r y n v) (hn : 1 ≤ n) :
    reader_phase l0 r y 2 (dispatch_rd_cancel v r) := by
  obtain ⟨⟨ha1, ha2⟩, d, hd, hph⟩ := h
  rcases hph with ⟨h0, _⟩ | ⟨h0, hw1, ⟨y2, hw2, hh2, hdt, hmn, hc2⟩, h3, h4⟩ |
    ⟨h0, hw1, hw2, h3, h4⟩
  · omega
  · rw [dispatch_rd_cancel_due v r y2 hw2 hc2]
    refine ⟨⟨?_, ha2⟩,
      d ++ ([effect.source_release r, effect.sys_close y2.m_handle] ++
        (if y2.m_rd_is_mine then [effect.delete_array y2.m_rd_data] else []) ++
        [effect.delete_context r]),
      ?_, Or.inr (Or.inr ⟨rfl, rfl, heap_set_same _ _ _, ?_, ?_⟩)⟩
    · intro q y3 hq hy3
      have hy4 : heap_set v.readers r none q = some y3 := hy3
      rw [heap_set_other _ _ _ _ hq] at hy4
      exact ha1 q y3 hq hy4
    · show v.log ++ _ = _
      rw [hd, List.append_assoc]
    · rw [List.count_append, h3, hh2]
      cases hm : y2.m_rd_is_mine <;> simp [List.count_cons]
    · rw [List.count_append, h4, hdt, ← hmn]
      cases hm : y2.m_rd_is_mine <;> simp [List.count_cons]
  · have h1 : dispatch_rd_cancel v r = v := by simp [dispatch_rd_cancel, hw2]
    rw [h1]
    exact ⟨⟨ha1, ha2⟩, d, hd, Or.inr (Or.inr ⟨rfl, hw1, hw2, h3, h4⟩)⟩

/-- A write context that the writer pointer does not refer to stays registered and
uncancelled through every teardown event, and its descriptor is not closed. -/
theorem writer_orphaned_step (l0 : List effect) (c : ptr) (x : context)
    (hxc : x.m_source.cancelled = false) (v : world)
    (h : writer_orphaned l0 c x v) (e : teardown_event) :
    writer_orphaned l0 c x (e.run v) := by
  obtain ⟨hx, hw, ha1, ha2, d, hd, hcl⟩ := h
  cases e with
  | call k =>
    have hrun : (teardown_event.call k).run v = k.run v := rfl
    rw [hrun]
    obtain ⟨d2, hsrc, hlog⟩ := call_log v k
    refine ⟨?_, by rw [(call_clears v k).2]; exact fun h => Option.noConfusion h, ?_, ?_,
      d ++ d2, by rw [hlog, hd, List.append_assoc], ?_⟩
    · rcases call_writers v k c with h1 | ⟨h1, _⟩
      · rw [h1]; exact hx
      · exact absurd h1 hw
    · intro p x2 hp hx2
      rcases call_writers v k p with h1 | ⟨_, x0, h1, h2⟩
      · rw [h1] at hx2
        exact ha1 p x2 hp hx2
      · rw [h2] at hx2
        cases hx2
        exact ha1 p x0 hp h1
    · intro p y2 hy2
      rcases call_readers v k p with h1 | ⟨_, y0, h1, h2⟩
      · rw [h1] at hy2
        exact ha2 p y2 hy2
      · rw [h2] at hy2
        cases hy2
        exact ha2 p y0 h1
    · intro hmem
      rcases List.mem_append.mp hmem with h1 | h1
      · exact hcl h1
      · exact not_mem_of_source_calls d2 hsrc (effect.sys_close x.m_handle) rfl h1
  | wr_handler p =>
    have hrun : (teardown_event.wr_handler p).run v = dispatch_wr_cancel v p := rfl
    rw [hrun]
    rcases dispatch_wr_cancel_cases v p with h1 | ⟨x0, hx0, hc0, h1⟩
    · rw [h1]
      exact ⟨hx, hw, ha1, ha2, d, hd, hcl⟩
    · rw [h1]
      have hpc : p ≠ c := by
        intro hpc
        rw [hpc, hx] at hx0
        cases hx0
        rw [hxc] at hc0
        cases hc0
      have hcp : c ≠ p := fun h => hpc h.symm
      refine ⟨?_, fun h => Option.noConfusion h, ?_, ha2,
        d ++ [effect.source_release p, effect.sys_close x0.m_handle, effect.delete_context p],
        ?_, ?_⟩
      · show heap_set v.writers p none c = some x
        rw [heap_set_other _ _ _ _ hcp]
        exact hx
      · intro q x2 hq hx2
        have hx3 : heap_set v.writers p none q = some x2 := hx2
        by_cases hqp : q = p
        · rw [hqp, heap_set_same] at hx3
          cases hx3
        · rw [heap_set_other _ _ _ _ hqp] at hx3
          exact ha1 q x2 hq hx3
      · show v.log ++ _ = _
        rw [hd, List.append_assoc]
      · have hne : x0.m_handle ≠ x.m_handle := ha1 p x0 hpc hx0
        have hne2 : x.m_handle ≠ x0.m_handle := fun h => hne h.symm
        intro hmem
        rcases List.mem_append.mp hmem with h2 | h2
        · exact hcl h2
        · simp [hne2] at h2
  | rd_handler p =>
    have hrun : (teardown_event.rd_handler p).run v = dispatch_rd_cancel v p := rfl
    rw [hrun]
    rcases dispatch_rd_cancel_cases v p with h1 | ⟨y0, hy0, hc0, h1⟩
    · rw [h1]
      exact ⟨hx, hw, ha1, ha2, d, hd, hcl⟩
    · rw [h1]
      refine ⟨hx, hw, ha1, ?_,
        d ++ ([effect.source_release p, effect.sys_close y0.m_handle] ++
          (if y0.m_rd_is_mine then [effect.delete_array y0.m_rd_data] else []) ++
          [effect.delete_context p]),
        ?_, ?_⟩
      · intro q y2 hy2
        have hy3 : heap_set v.readers p none q = some y2 := hy2
        by_cases hqp : q = p
        · rw [hqp, heap_set_same] at hy3
          cases hy3
        · rw [heap_set_other _ _ _ _ hqp] at hy3
          exact ha2 q y2 hy3
      · show v.log ++ _ = _
        rw [hd, List.append_assoc]
      · have hne : y0.m_handle ≠ x.m_handle := ha2 p y0 hy0
        have hne2 : x.m_handle ≠ y0.m_handle := fun h => hne h.symm
        intro hmem
        rcases List.mem_append.mp hmem with h2 | h2
        · exact hcl h2
        · cases hm : y0.m_rd_is_mine <;> simp [hm, hne2] at h2

theorem writer_orphaned_run (l0 : List effect) (c : ptr) (x : context)
    (hxc : x.m_source.cancelled = false) :
    ∀ (evs : List teardown_event) (v : world), writer_orphaned l0 c x v →
      writer_orphaned l0 c x (run_events v evs) := by
  intro evs
  induction evs with
  | nil => intro v h; exact h
  | cons e rest ih =>
    intro v h
    rw [run_events_cons]
    exact ih _ (writer_orphaned_step l0 c x hxc v h e)

/-! ## The connect path -/

/-- C1 (amended). `write(data, size)` fails with `invalid_state` whenever the state is
not connected (whatever the busy flag) and with `resource_busy` when the state is
connected and a write is in flight, and in both cases leaves the whole stream
unchanged. On a stream whose writer pointer is not null it succeeds exactly when the
state is connected and the busy flag is clear. After an accepted first write a second
write fails with `resource_busy`, and the write-readiness events that follow complete
the first write: the busy flag is cleared, the offset is the first size, and `on_write`
is invoked with the first write's data and size, once when the callback object is
alive (not at all when it is not), and with no other arguments. -/
theorem write_contract (b : build) (w : world) (data size data2 size2 : Nat) :
    (w.m_state ≠ state.connected →
      write w data size = (w, outcome.threw exc.invalid_state)) ∧
    (w.m_state = state.connected → w.m_wr_busy = true →
      write w data size = (w, outcome.threw (exc.operation_failed errc.resource_busy))) ∧
    (w.m_writer ≠ none →
      ((write w data size).2 = outcome.returned ↔
        (w.m_state = state.connected ∧ w.m_wr_busy = false))) ∧
    (∀ (c : ptr) (x : context) (evs : List (Nat × wr_event_os)) (last : Nat × wr_event_os),
      w.m_state = state.connected → w.m_wr_busy = false →
      w.m_writer = some c → w.writers c = some x → size < 2 ^ 64 →
      (∀ e ∈ evs, 0 ≤ e.2.write_ret) → 0 ≤ last.2.write_ret →
      (evs ≠ [] → transferred evs < size) →
      transferred evs + last.2.write_ret.toNat = size →
      write (write w data size).1 data2 size2 =
        ((write w data size).1, outcome.threw (exc.operation_failed errc.resource_busy)) ∧
      (on_wr_event b (wr_events b (write (write w data size).1 data2 size2).1 c evs) c
        last.1 last.2).m_wr_busy = false ∧
      (on_wr_event b (wr_events b (write (write w data size).1 data2 size2).1 c evs) c
        last.1 last.2).m_wr_pos = size ∧
      (since (write w data size).1
        (on_wr_event b (wr_events b (write (write w data size).1 data2 size2).1 c evs) c
          last.1 last.2)).count (effect.on_write data size) =
        (if w.m_handler then 1 else 0) ∧
      ∀ d s, effect.on_write d s ∈ since (write w data size).1
        (on_wr_event b (wr_events b (write (write w data size).1 data2 size2).1 c evs) c
          last.1 last.2) → d = data ∧ s = size) := by
  refine ⟨write_not_connected w data size, write_busy w data size, ?_, ?_⟩
  · intro hw
    obtain ⟨c, hc⟩ := Option.ne_none_iff_exists'.mp hw
    by_cases hs : w.m_state = state.connected
    · cases hb : w.m_wr_busy
      · simp [write, hs, hb, hc]
      · simp [write, hs, hb]
    · simp [write, hs]
  · intro c x evs last hs hb hw hx hn hk hl hlt hsum
    have hacc := write_accepted w c x data size hs hb hw hx
    have hsecond : write (write w data size).1 data2 size2 =
        ((write w data size).1, outcome.threw (exc.operation_failed errc.resource_busy)) :=
      write_busy _ data2 size2 (by rw [hacc]; exact hs) (by rw [hacc])
    refine ⟨hsecond, ?_⟩
    rw [hsecond]
    obtain ⟨d, e1, hall, he1, _, h3⟩ := wr_events_complete b c
      { x with m_source := { x.m_source with resumed := true } } (write w data size).1
      evs last (by rw [hacc]; exact hs) (by rw [hacc]; exact heap_set_same _ _ _)
      (by rw [hacc]; exact hn) hk hl
      (by rw [hacc]; intro h; simpa using hlt h) (by rw [hacc]; simpa using hsum)
    have hsince := since_of_log_eq (write w data size).1 _ _ (congrArg world.log h3)
    rw [hsince, h3, hacc]
    refine ⟨rfl, rfl, ?_, ?_⟩
    · rw [List.count_append, count_of_sys_writes d hall (effect.on_write data size) rfl]
      cases hh : w.m_handler
      · simp [List.count_cons]
        intro h; rw [h] at he1; exact Bool.noConfusion he1
      · simp [List.count_cons]
        intro h; rw [h] at he1; exact Bool.noConfusion he1
    · intro d2 s2 hmem
      rcases List.mem_append.mp hmem with h | h
      · exact absurd h (not_mem_of_sys_writes d hall (effect.on_write d2 s2) rfl)
      · cases hh : w.m_handler
        · simp [hh] at h
          rw [← h] at he1; exact Bool.noConfusion he1
        · simp [hh] at h
          rcases h with h | h
          · rw [← h] at he1; exact Bool.noConfusion he1
          · exact h

/-- Witness of C1: on the accepted stream a first write of 10 bytes is in flight, a
second write fails with `resource_busy`, and events transferring 3, 3 and 4 bytes
deliver `on_write(77, 10)` once. -/
theorem write_contract_witness :
    (accepted_stream true).m_state = state.connected ∧
    (accepted_stream true).m_wr_busy = false ∧
    (accepted_stream true).m_writer = some 1 ∧
    (write (write (accepted_stream true) 77 10).1 88 4).2 =
      outcome.threw (exc.operation_failed errc.resource_busy) ∧
    (since (write (accepted_stream true) 77 10).1
      (on_wr_event osx_build
        (wr_events osx_build (write (write (accepted_stream true) 77 10).1 88 4).1 1
          [wrote 3, wrote 3]) 1 (wrote 4).1 (wrote 4).2)).count (effect.on_write 77 10) = 1 := by
  have h := (write_contract osx_build (accepted_stream true) 77 10 88 4).2.2.2 1
    { accepted_writer with m_source := { resumed := false, cancelled := false } }
    [wrote 3, wrote 3] (wrote 4) rfl rfl rfl rfl (by norm_num) (by decide) (by decide)
    (by intro _; decide) (by decide)
  exact ⟨rfl, rfl, rfl, by rw [h.1], h.2.2.2.1⟩

/-- Counterexample to C1 as stated. After `shutdown()` the accepted stream is still in
state connected with the busy flag clear, and `write` dereferences the null writer
pointer instead of succeeding. And on a stream whose callback object is gone, the event
that completes an accepted write invokes no `on_write`. -/
theorem write_contract_counterexample :
    ((shutdown (accepted_stream true)).m_state = state.connected ∧
      (shutdown (accepted_stream true)).m_wr_busy = false ∧
      (write (shutdown (accepted_stream true)) 77 10).2 = outcome.null_deref) ∧
    ((write (accepted_stream false) 77 10).2 = outcome.returned ∧
      (on_wr_event osx_build (write (accepted_stream false) 77 10).1 1
        (wrote 10).1 (wrote 10).2).m_wr_busy = false ∧
      (on_wr_event osx_build (write (accepted_stream false) 77 10).1 1
        (wrote 10).1 (wrote 10).2).log.count (effect.on_write 77 10) = 0) := by
  decide

/-- C2 (amended). After an accepted write of size `n` on a connected stream, in every
run of write-readiness events whose `::write` calls transfer `k` bytes with
`0 ≤ k ≤ n - offset`, each event advances the offset by `k`. While the offset stays
below `n` (the events `evs`) the state stays connected, the busy flag stays set, the
write source is not suspended and `on_write` is not invoked. The first event after
which the offset reaches `n` (the event `last`) suspends the write source, clears the
busy flag and invokes `on_write(data, n)`: exactly once when the callback object is
alive, and not at all when it is gone. -/
theorem write_events_complete (b : build) (w : world) (c : ptr) (x : context) (data n : Nat)
    (evs : List (Nat × wr_event_os)) (last : Nat × wr_event_os)
    (hn : n < 2 ^ 64)
    (hs : w.m_state = state.connected) (hb : w.m_wr_busy = false)
    (hw : w.m_writer = some c) (hx : w.writers c = some x)
    (hk : ∀ e ∈ evs, 0 ≤ e.2.write_ret) (hl : 0 ≤ last.2.write_ret)
    (hlt : evs ≠ [] → transferred evs < n)
    (hsum : transferred evs + last.2.write_ret.toNat = n)
    (w1 w2 w3 : world) (h1 : w1 = (write w data n).1) (h2 : w2 = wr_events b w1 c evs)
    (h3 : w3 = on_wr_event b w2 c last.1 last.2) :
    (write w data n).2 = outcome.returned ∧
    w2.m_wr_pos = transferred evs ∧ w2.m_wr_busy = true ∧ w2.m_state = state.connected ∧
    (w2.writers c).map (fun y => y.m_source.resumed) = some true ∧
    effect.source_suspend c ∉ since w1 w2 ∧
    (∀ d s, effect.on_write d s ∉ since w1 w2) ∧
    w3.m_wr_pos = n ∧ w3.m_wr_busy = false ∧ w3.m_state = state.connected ∧
    (w3.writers c).map (fun y => y.m_source.resumed) = some false ∧
    (since w1 w3).count (effect.source_suspend c) = 1 ∧
    (since w1 w3).count (effect.on_write data n) = (if w.m_handler then 1 else 0) ∧
    (∀ d s, effect.on_write d s ∈ since w1 w3 → d = data ∧ s = n) := by
  have hacc := write_accepted w c x data n hs hb hw hx
  obtain ⟨d, e1, hall, he1, h4, h5⟩ := wr_events_complete b c
    { x with m_source := { x.m_source with resumed := true } } (write w data n).1
    evs last (by rw [hacc]; exact hs) (by rw [hacc]; exact heap_set_same _ _ _)
    (by rw [hacc]; exact hn) hk hl
    (by rw [hacc]; intro h; simpa using hlt h) (by rw [hacc]; simpa using hsum)
  rw [← h1] at h4 h5
  rw [← h2] at h5
  rw [← h3] at h5
  rw [← h2] at h4
  have hs2 := since_of_log_eq w1 w2 _ (congrArg world.log h4)
  have hs3 := since_of_log_eq w1 w3 _ (congrArg world.log h5)
  have hne : e1 ≠ effect.source_suspend c := by
    intro h; rw [h] at he1; exact Bool.noConfusion he1
  have hne2 : ∀ d s, e1 ≠ effect.on_write d s := by
    intro d s h; rw [h] at he1; exact Bool.noConfusion he1
  rw [hs2, hs3, h4, h5, h1, hacc]
  refine ⟨rfl, by simp, rfl, hs, by simp [heap_set], ?_, ?_, rfl, rfl, hs,
    by simp [heap_set], ?_, ?_, ?_⟩
  · exact not_mem_of_sys_writes d hall (effect.source_suspend c) rfl
  · intro d2 s2
    exact not_mem_of_sys_writes d hall (effect.on_write d2 s2) rfl
  · rw [List.count_append, count_of_sys_writes d hall (effect.source_suspend c) rfl]
    cases hh : w.m_handler <;> simp [List.count_cons, hne]
  · rw [List.count_append, count_of_sys_writes d hall (effect.on_write data n) rfl]
    cases hh : w.m_handler <;> simp [List.count_cons, hne2]
  · intro d2 s2 hmem
    rcases List.mem_append.mp hmem with h | h
    · exact absurd h (not_mem_of_sys_writes d hall (effect.on_write d2 s2) rfl)
    · cases hh : w.m_handler
      · simp [hh] at h
        exact absurd h.symm (hne2 d2 s2)
      · simp [hh] at h
        rcases h with h | h
        · exact absurd h.symm (hne2 d2 s2)
        · exact h

/-- Witness of C2: a write of 10 bytes on the accepted stream, completed by events
that transfer 3, 3 and 4 bytes. -/
theorem write_events_complete_witness :
    (accepted_stream true).m_state = state.connected ∧
    transferred [wrote 3, wrote 3] < 10 ∧
    (wr_events osx_build (write (accepted_stream true) 77 10).1 1
      [wrote 3, wrote 3]).m_wr_pos = 6 ∧
    (since (write (accepted_stream true) 77 10).1
      (on_wr_event osx_build
        (wr_events osx_build (write (accepted_stream true) 77 10).1 1 [wrote 3, wrote 3])
        1 (wrote 4).1 (wrote 4).2)).count (effect.on_write 77 10) = 1 := by
  have h := write_events_complete osx_build (accepted_stream true) 1
    { accepted_writer with m_source := { resumed := false, cancelled := false } } 77 10
    [wrote 3, wrote 3] (wrote 4) (by norm_num) rfl rfl rfl rfl (by decide) (by decide)
    (by intro _; decide) (by decide) _ _ _ rfl rfl rfl
  exact ⟨rfl, by decide, h.2.1, h.2.2.2.2.2.2.2.2.2.2.2.2.1⟩

/-- Counterexample to C2 as stated: on the accepted stream whose callback object is
gone, a write of 10 bytes is accepted and the event that transfers all 10 bytes brings
the offset to 10 and clears the busy flag, but `on_write` is not invoked. -/
theorem write_events_complete_counterexample :
    (write (accepted_stream false) 77 10).2 = outcome.returned ∧
    (on_wr_event osx_build (write (accepted_stream false) 77 10).1 1
      (wrote 10).1 (wrote 10).2).m_wr_pos = 10 ∧
    (since (write (accepted_stream false) 77 10).1
      (on_wr_event osx_build (write (accepted_stream false) 77 10).1 1
        (wrote 10).1 (wrote 10).2)).count (effect.on_write 77 10) = 0 := by
  decide

/-- C4 (code defect). On a Linux build `stream::connect` to an IPv4 address opens its
socket with `::socket(AF_INET6, SOCK_STREAM | SOCK_NONBLOCK, 0)`: the first call it makes
is a `::socket` of family `AF_INET6`, not `AF_INET`. -/
theorem connect_linux_ipv4_family (b : build) (w : world) (os : connect_os)
    (hl : b.linux_target = true) (hs : w.m_state = state.disconnected) :
    (since w (connect b w version.ipv4 os).1).head? =
      some (effect.sys_socket family.af_inet6 true os.socket_ret) ∧
    ∀ nb h, effect.sys_socket family.af_inet nb h ∉ since w (connect b w version.ipv4 os).1 := by
  rcases hw : w.m_writer with _ | p
  · cases hex : w.m_executor <;> cases hst : b.wr_start <;>
      by_cases hsock : os.socket_ret = invalid_handle <;>
      by_cases hc : os.connect_ret = -1 <;> cases he : os.errno_einprogress <;>
      simp [connect, connect_try, hs, hsock, hl, hex, hc, he, hst, hw, world.emit,
        create_write_source, cancel_write_source, wr_resume, wr_cancel, heap_set_same, since]
  · cases hx : w.writers p <;>
      cases hex : w.m_executor <;> cases hst : b.wr_start <;>
      by_cases hsock : os.socket_ret = invalid_handle <;>
      by_cases hc : os.connect_ret = -1 <;> cases he : os.errno_einprogress <;>
      simp [connect, connect_try, hs, hsock, hl, hex, hc, he, hst, hw, hx, world.emit,
        create_write_source, cancel_write_source, wr_resume, wr_cancel, heap_set_same, since]

/-- Witness of C4: a Linux stream connecting to an IPv4 address opens an `AF_INET6`
socket and passes it a `sockaddr` of family `AF_INET`; the macOS build opens `AF_INET`. -/
theorem connect_linux_ipv4_family_witness :
    (connect linux_build (stream_new true true) version.ipv4 pending_os).1.log =
      [effect.sys_socket family.af_inet6 true 5, effect.source_create 1 5 false,
        effect.source_resume 1, effect.sys_connect 5 family.af_inet (-1)] ∧
    (since (stream_new true true)
      (connect linux_build (stream_new true true) version.ipv4 pending_os).1).head? =
      some (effect.sys_socket family.af_inet6 true 5) ∧
    (connect osx_build (stream_new true true) version.ipv4 pending_os).1.log.head? =
      some (effect.sys_socket family.af_inet false 5) :=
  ⟨by decide,
    (connect_linux_ipv4_family linux_build (stream_new true true) pending_os rfl rfl).1,
    by decide⟩

/-- C5 (code defect). On a Linux build `stream::connect` to an IPv6 address opens its
socket with `::socket(AF_INET6, SOCK_STREAM, 0)`, without `SOCK_NONBLOCK`, and makes no
`ioctl`: none of the calls made before `::connect` puts the socket in non-blocking mode. -/
theorem connect_linux_ipv6_blocking (b : build) (w : world) (os : connect_os)
    (hl : b.linux_target = true) (hs : w.m_state = state.disconnected)
    (hsock : os.socket_ret ≠ invalid_handle) (hex : w.m_executor = true) :
    ∃ (pre post : List effect),
      since w (connect b w version.ipv6 os).1 =
        pre ++ effect.sys_connect os.socket_ret family.af_inet6 os.connect_ret :: post ∧
      pre.head? = some (effect.sys_socket family.af_inet6 false os.socket_ret) ∧
      made_nonblocking pre os.socket_ret = false ∧
      (∀ f h r, effect.sys_connect f h r ∉ pre) := by
  refine ⟨[effect.sys_socket family.af_inet6 false os.socket_ret,
      effect.source_create w.fresh os.socket_ret false] ++
      (if b.wr_start then [effect.source_resume w.fresh] else []),
    (since w (connect b w version.ipv6 os).1).drop (if b.wr_start then 4 else 3), ?_, ?_, ?_, ?_⟩
  · cases hst : b.wr_start <;> cases hw : w.m_writer <;>
      by_cases hc : os.connect_ret = -1 <;> cases he : os.errno_einprogress <;>
      simp [connect, connect_try, hs, hsock, hl, hex, hc, he, hst, hw, world.emit,
        create_write_source, cancel_write_source, wr_resume, wr_cancel, heap_set_same, since]
  · simp
  · cases hst : b.wr_start <;> simp [made_nonblocking]
  · intro f h r
    cases hst : b.wr_start <;> simp

/-- Witness of C5: the calls of a Linux stream connecting to an IPv6 address, next to
those of the macOS build, which switches the socket with `ioctl(FIONBIO)`. -/
theorem connect_linux_ipv6_blocking_witness :
    (connect linux_build (stream_new true true) version.ipv6 pending_os).1.log =
      [effect.sys_socket family.af_inet6 false 5, effect.source_create 1 5 false,
        effect.source_resume 1, effect.sys_connect 5 family.af_inet6 (-1)] ∧
    (∃ (pre post : List effect),
      since (stream_new true true)
        (connect linux_build (stream_new true true) version.ipv6 pending_os).1 =
        pre ++ effect.sys_connect 5 family.af_inet6 (-1) :: post ∧
      made_nonblocking pre 5 = false) ∧
    (connect osx_build (stream_new true true) version.ipv6 pending_os).1.log =
      [effect.sys_socket family.af_inet6 false 5, effect.sys_ioctl_fionbio 5 0,
        effect.source_create 1 5 false, effect.source_resume 1,
        effect.sys_connect 5 family.af_inet6 (-1)] := by
  obtain ⟨pre, post, h1, _, h3, _⟩ := connect_linux_ipv6_blocking linux_build
    (stream_new true true) pending_os rfl rfl (by decide) rfl
  exact ⟨by decide, ⟨pre, post, h1, h3⟩, by decide⟩

/-- C6. A `connect` made in a state other than disconnected throws `invalid_state` and
changes nothing (no socket is opened). A `connect` made in state disconnected with no
write source registered, whose `::socket` succeeded, either returns or fails in one of
three ways, and then rethrows the exception of the failing step, leaves the state
disconnected and the writer pointer null, and closes the opened handle exactly once:
when the switch to non-blocking mode fails or the executor is gone, no write source was
registered and `connect` closes the handle itself; when `::connect` fails with an error
other than `EINPROGRESS`, `connect` cancels the registered write source and does not
close the handle itself, and the cancel handler of that source closes it. -/
theorem connect_failure_cleanup (b : build) (w : world) (addr_ : version) (os : connect_os) :
    (w.m_state ≠ state.disconnected →
      connect b w addr_ os = (w, outcome.threw exc.invalid_state)) ∧
    (w.m_state = state.disconnected → w.m_writer = none → os.socket_ret ≠ invalid_handle →
      ((connect b w addr_ os).2 = outcome.returned ∨
        (b.linux_target = false ∧ os.ioctl_ret ≠ 0) ∨
        ((b.linux_target = true ∨ os.ioctl_ret = 0) ∧ w.m_executor = false) ∨
        ((b.linux_target = true ∨ os.ioctl_ret = 0) ∧ w.m_executor = true ∧
          os.connect_ret = -1 ∧ os.errno_einprogress = false)) ∧
      (b.linux_target = false → os.ioctl_ret ≠ 0 →
        (connect b w addr_ os).2 = outcome.threw exc.socket_failure ∧
        (connect b w addr_ os).1.m_state = state.disconnected ∧
        (connect b w addr_ os).1.m_writer = none ∧
        (connect b w addr_ os).1.writers = w.writers ∧
        (since w (connect b w addr_ os).1).count (effect.sys_close os.socket_ret) = 1) ∧
      ((b.linux_target = true ∨ os.ioctl_ret = 0) → w.m_executor = false →
        (connect b w addr_ os).2 = outcome.threw exc.runner_not_available ∧
        (connect b w addr_ os).1.m_state = state.disconnected ∧
        (connect b w addr_ os).1.m_writer = none ∧
        (connect b w addr_ os).1.writers = w.writers ∧
        (since w (connect b w addr_ os).1).count (effect.sys_close os.socket_ret) = 1) ∧
      ((b.linux_target = true ∨ os.ioctl_ret = 0) → w.m_executor = true →
        os.connect_ret = -1 → os.errno_einprogress = false →
        (connect b w addr_ os).2 = outcome.threw exc.socket_failure ∧
        (connect b w addr_ os).1.m_state = state.disconnected ∧
        (connect b w addr_ os).1.m_writer = none ∧
        ((connect b w addr_ os).1.writers w.fresh).map
          (fun y => (y.m_handle, y.m_source.cancelled)) = some (os.socket_ret, true) ∧
        (since w (connect b w addr_ os).1).count (effect.source_cancel w.fresh) = 1 ∧
        (since w (connect b w addr_ os).1).count (effect.sys_close os.socket_ret) = 0 ∧
        (since w (dispatch_wr_cancel (connect b w addr_ os).1 w.fresh)).count
          (effect.sys_close os.socket_ret) = 1 ∧
        (dispatch_wr_cancel (connect b w addr_ os).1 w.fresh).m_state = state.disconnected ∧
        (dispatch_wr_cancel (connect b w addr_ os).1 w.fresh).m_writer = none ∧
        (dispatch_wr_cancel (connect b w addr_ os).1 w.fresh).writers w.fresh = none)) := by
  refine ⟨fun hs => by simp [connect, hs], ?_⟩
  intro hs hwn hsock
  refine ⟨?_, ?_, ?_, ?_⟩
  · cases hb : b.linux_target <;> cases hex : w.m_executor <;>
      by_cases hi : os.ioctl_ret = 0 <;> by_cases hc : os.connect_ret = -1 <;>
      cases he : os.errno_einprogress <;> cases hst : b.wr_start <;>
      simp [connect, connect_try, hs, hsock, hb, hi, hex, hc, he, hst, world.emit,
        create_write_source, wr_resume, heap_set_same]
  · intro hl hi
    simp [connect, connect_try, hs, hsock, hl, hi, world.emit, cancel_write_source, hwn, since]
  · intro hl hex
    cases hb : b.linux_target <;>
      simp [hb] at hl <;>
      simp [connect, connect_try, hs, hsock, hl, hb, world.emit, cancel_write_source, hwn,
        create_write_source, hex, since]
  · intro hl hex hc he
    cases hb : b.linux_target <;> cases hst : b.wr_start <;>
      simp [hb] at hl <;>
      simp [connect, connect_try, hs, hsock, hl, hb, world.emit, cancel_write_source, hwn,
        create_write_source, hex, hc, he, hst, wr_resume, wr_cancel, heap_set_same,
        heap_set_set, since, dispatch_wr_cancel, on_wr_cancel, List.count_cons]

/-- Witness of C6: a macOS stream whose `::connect` is refused at once. -/
theorem connect_failure_cleanup_witness :
    (stream_new true true).m_state = state.disconnected ∧
    (stream_new true true).m_writer = none ∧
    (connect osx_build (stream_new true true) version.ipv4 refused_os).2 =
      outcome.threw exc.socket_failure ∧
    (since (stream_new true true)
      (connect osx_build (stream_new true true) version.ipv4 refused_os).1).count
        (effect.sys_close 5) = 0 ∧
    (since (stream_new true true)
      (dispatch_wr_cancel (connect osx_build (stream_new true true) version.ipv4 refused_os).1
        1)).count (effect.sys_close 5) = 1 := by
  have h := ((connect_failure_cleanup osx_build (stream_new true true) version.ipv4
    refused_os).2 rfl rfl (by decide)).2.2.2 (Or.inr rfl) rfl rfl rfl
  exact ⟨rfl, rfl, h.1, h.2.2.2.2.2.1, h.2.2.2.2.2.2.1⟩

/-- C8 (amended). For a connected stream with a live callback, when the peer-EOF event
(read-readiness with data count 0) is applied first and the local `disconnect()` call
second, the callback receives the disconnected event exactly once, and no other event;
when `disconnect()` is applied first and the peer-EOF event second, the callback
receives no event at all. In both orders the event is delivered at most once. -/
theorem eof_and_disconnect_orders (w : world) (r : ptr) (y : rd_context) (read_ret : Int)
    (cb : on_read_result)
    (hs : w.m_state = state.connected) (hh : w.m_handler = true)
    (hy : w.readers r = some y) :
    (since w (disconnect (on_rd_event w r 0 read_ret cb))).count
      (effect.on_event event.disconnected error_code.no_error) = 1 ∧
    (∀ e cd, effect.on_event e cd ∈ since w (disconnect (on_rd_event w r 0 read_ret cb)) →
      e = event.disconnected ∧ cd = error_code.no_error) ∧
    (∀ e cd, effect.on_event e cd ∉ since w (on_rd_event (disconnect w) r 0 read_ret cb)) ∧
    (disconnect (on_rd_event w r 0 read_ret cb)).m_state = state.disconnected ∧
    (on_rd_event (disconnect w) r 0 read_ret cb).m_state = state.disconnected := by
  obtain ⟨d1, hall1, hd1⟩ := process_disconnect_event_frame w hs
  obtain ⟨d2, hall2, hd2⟩ := disconnect_frame (process_disconnect_event w)
  obtain ⟨d3, hall3, hd3⟩ := disconnect_frame w
  have hst3 : (disconnect w).m_state ≠ state.connected := by
    show state.disconnected ≠ state.connected
    decide
  rw [on_rd_event_eof w r y read_ret cb hy, on_rd_event_eof_skip (disconnect w) r read_ret cb hst3]
  have hlog : (disconnect (process_disconnect_event w)).log =
      w.log ++ (d1 ++ [effect.on_event event.disconnected error_code.no_error] ++ d2) := by
    rw [hd2]
    show (process_disconnect_event w).log ++ d2 = _
    rw [hd1]
    simp [hh]
  have hsB := since_of_log_eq w _ _ hlog
  have hsA := since_of_log_eq w (disconnect w) d3 (by rw [hd3])
  rw [hsB, hsA]
  refine ⟨?_, ?_, ?_, by rw [hd2], by rw [hd3]⟩
  · rw [List.count_append, List.count_append,
      count_of_source_calls d1 hall1 (effect.on_event event.disconnected error_code.no_error) rfl,
      count_of_source_calls d2 hall2 (effect.on_event event.disconnected error_code.no_error) rfl]
    simp
  · intro e cd hmem
    rcases List.mem_append.mp hmem with h | h
    · rcases List.mem_append.mp h with h | h
      · exact absurd h (not_mem_of_source_calls d1 hall1 (effect.on_event e cd) rfl)
      · simpa using h
    · exact absurd h (not_mem_of_source_calls d2 hall2 (effect.on_event e cd) rfl)
  · intro e cd
    exact not_mem_of_source_calls d3 hall3 (effect.on_event e cd) rfl

/-- Witness of C8: the two orders on the accepted stream with a live callback. -/
theorem eof_and_disconnect_orders_witness :
    (accepted_stream true).m_state = state.connected ∧
    (accepted_stream true).m_handler = true ∧
    (since (accepted_stream true)
      (disconnect (on_rd_event (accepted_stream true) 2 0 0 none))).count
        (effect.on_event event.disconnected error_code.no_error) = 1 ∧
    (since (accepted_stream true)
      (on_rd_event (disconnect (accepted_stream true)) 2 0 0 none)).count
        (effect.on_event event.disconnected error_code.no_error) = 0 := by
  have h := eof_and_disconnect_orders (accepted_stream true) 2
    { m_handle := 6, m_source := { resumed := true, cancelled := false },
      m_rd_data := 1000, m_rd_size := 16, m_rd_is_mine := true } 0 none rfl rfl rfl
  exact ⟨rfl, rfl, h.1, List.count_eq_zero_of_not_mem (h.2.2.1 _ _)⟩

/-- Counterexample to C8 as stated: on the accepted stream with a live callback,
`disconnect()` followed by the peer-EOF event logs the cancellation of the two sources
and nothing else; the callback receives no disconnected event. -/
theorem eof_and_disconnect_orders_counterexample :
    (accepted_stream true).m_state = state.connected ∧
    (accepted_stream true).m_handler = true ∧
    since (accepted_stream true)
      (on_rd_event (disconnect (accepted_stream true)) 2 0 0 none) =
      [effect.source_resume 2, effect.source_cancel 2,
        effect.source_resume 1, effect.source_cancel 1] ∧
    (since (accepted_stream true)
      (on_rd_event (disconnect (accepted_stream true)) 2 0 0 none)).count
        (effect.on_event event.disconnected error_code.no_error) = 0 := by
  decide

/-- C9 (amended). For a stream in state connected, `disconnect()` moves the state
directly to disconnected, not to disconnecting, and the state is still disconnected
once teardown (the cancel handlers of the write and read sources, in either order) has
run. -/
theorem disconnect_state (w : world) (c r : ptr) (hs : w.m_state = state.connected) :
    w.m_state ≠ (disconnect w).m_state ∧
    (disconnect w).m_state = state.disconnected ∧
    (disconnect w).m_state ≠ state.disconnecting ∧
    (dispatch_rd_cancel (dispatch_wr_cancel (disconnect w) c) r).m_state =
      state.disconnected ∧
    (dispatch_wr_cancel (dispatch_rd_cancel (disconnect w) r) c).m_state =
      state.disconnected := by
  have h : (disconnect w).m_state = state.disconnected := rfl
  refine ⟨by rw [h, hs]; decide, h, by rw [h]; decide, ?_, ?_⟩
  · rw [dispatch_rd_cancel_state, dispatch_wr_cancel_state, h]
  · rw [dispatch_wr_cancel_state, dispatch_rd_cancel_state, h]

/-- Witness of C9: `disconnect()` on the accepted stream, followed by the cancel
handlers of its write context (address 1) and read context (address 2). -/
theorem disconnect_state_witness :
    (accepted_stream true).m_state = state.connected ∧
    (disconnect (accepted_stream true)).m_state = state.disconnected ∧
    (dispatch_rd_cancel (dispatch_wr_cancel (disconnect (accepted_stream true)) 1) 2).m_state =
      state.disconnected := by
  have h := disconnect_state (accepted_stream true) 1 2 rfl
  exact ⟨rfl, h.2.1, h.2.2.2.1⟩

/-- Counterexample to C9 as stated: on the accepted stream `disconnect()` leaves the
state disconnected, not disconnecting, and `shutdown()` leaves the state connected,
also after the cancel handlers of both sources have run. -/
theorem disconnect_state_counterexample :
    (accepted_stream true).m_state = state.connected ∧
    (disconnect (accepted_stream true)).m_state = state.disconnected ∧
    (shutdown (accepted_stream true)).m_state = state.connected ∧
    (dispatch_rd_cancel (dispatch_wr_cancel (shutdown (accepted_stream true)) 1) 2).m_state =
      state.connected ∧
    (dispatch_rd_cancel (dispatch_wr_cancel (shutdown (accepted_stream true)) 1) 2).log =
      (accepted_stream true).log ++
        [effect.source_resume 2, effect.source_cancel 2,
          effect.source_resume 1, effect.source_cancel 1,
          effect.source_release 1, effect.sys_close 5, effect.delete_context 1,
          effect.source_release 2, effect.sys_close 6, effect.delete_array 1000,
          effect.delete_context 2] := by
  decide

/-- Teardown of a stream with both sources registered. For every stream and every
finite sequence of `shutdown()` and `disconnect()` calls, each event source is cancelled
at most once: the first call clears both pointers and cancels what it finds, every
later call logs nothing. For a stream with both sources registered, and whatever the
order in which at least one such call and the joint runs of the two cancel handlers
follow one another, once the handlers have run each source was cancelled exactly once,
each source handle was closed exactly once, a library-owned read buffer was released
exactly once (a caller-supplied one never), and both contexts are deleted. -/
theorem teardown_once (w : world) :
    (∀ (ks : List teardown_call) (p : ptr),
      (∀ q, w.m_reader = some q → w.m_writer ≠ some q) →
      (since w (run_calls w ks)).count (effect.source_cancel p) ≤ 1) ∧
    (∀ (k : teardown_call) (rest : List teardown_call),
      since w (run_calls w (k :: rest)) = since w (k.run w) ∧
      (run_calls w (k :: rest)).m_reader = none ∧
      (run_calls w (k :: rest)).m_writer = none) ∧
    (∀ (c r : ptr) (x : context) (y : rd_context) (steps : List teardown_step),
      w.m_writer = some c → w.writers c = some x → x.m_source.cancelled = false →
      w.m_reader = some r → w.readers r = some y → y.m_source.cancelled = false →
      c ≠ r → x.m_handle ≠ y.m_handle →
      (∃ k, teardown_step.call k ∈ steps) →
      (since w (run_handlers (run_steps w c r steps) c r)).count (effect.source_cancel c) = 1 ∧
      (since w (run_handlers (run_steps w c r steps) c r)).count (effect.source_cancel r) = 1 ∧
      (since w (run_handlers (run_steps w c r steps) c r)).count
        (effect.sys_close x.m_handle) = 1 ∧
      (since w (run_handlers (run_steps w c r steps) c r)).count
        (effect.sys_close y.m_handle) = 1 ∧
      (since w (run_handlers (run_steps w c r steps) c r)).count
        (effect.delete_array y.m_rd_data) = (if y.m_rd_is_mine then 1 else 0) ∧
      (∀ h, effect.sys_close h ∈ since w (run_handlers (run_steps w c r steps) c r) →
        h = x.m_handle ∨ h = y.m_handle) ∧
      (run_handlers (run_steps w c r steps) c r).m_writer = none ∧
      (run_handlers (run_steps w c r steps) c r).m_reader = none ∧
      (run_handlers (run_steps w c r steps) c r).writers c = none ∧
      (run_handlers (run_steps w c r steps) c r).readers r = none) := by
  have hfirst : ∀ (k : teardown_call) (rest : List teardown_call),
      since w (run_calls w (k :: rest)) = since w (k.run w) ∧
      (run_calls w (k :: rest)).m_reader = none ∧
      (run_calls w (k :: rest)).m_writer = none := by
    intro k rest
    obtain ⟨h1, h2⟩ := call_clears w k
    obtain ⟨h3, h4, h5⟩ := run_calls_idle rest (k.run w) h1 h2
    rw [run_calls_cons]
    exact ⟨by simp only [since, h3], h4, h5⟩
  refine ⟨?_, hfirst, ?_⟩
  · intro ks p hdist
    cases ks with
    | nil =>
      show (since w w).count _ ≤ 1
      rw [since_self]
      simp
    | cons k rest =>
      rw [(hfirst k rest).1]
      exact call_cancels_once w k hdist p
  · intro c r x y steps hw hx hxc hr hy hyc hcr hh hcall
    have hrel : sources_released w.log c r x y (run_handlers (run_steps w c r steps) c r) := by
      rcases run_steps_phase w c r x y hw hx hxc hy hr hyc steps w (Or.inl rfl) with
        ⟨_, _, h3⟩ | h3 | h3
      · obtain ⟨k, hk⟩ := hcall
        exact absurd hk (h3 k)
      · exact handlers_when_cancelled _ _ c r x y h3
      · rw [handlers_when_released _ _ c r x y h3]
        exact h3
    obtain ⟨h1, h2, h3, h4, h5⟩ := hrel
    have hsince := since_of_log_eq w _ _ h5
    rw [hsince]
    have hrc : r ≠ c := fun h => hcr h.symm
    have hh2 : y.m_handle ≠ x.m_handle := fun h => hh h.symm
    refine ⟨?_, ?_, ?_, ?_, ?_, ?_, h2, h1, h3, h4⟩
    · cases hm : y.m_rd_is_mine <;> simp [List.count_cons, hrc]
    · cases hm : y.m_rd_is_mine <;> simp [List.count_cons, hcr]
    · cases hm : y.m_rd_is_mine <;> simp [List.count_cons, hh2]
    · cases hm : y.m_rd_is_mine <;> simp [List.count_cons, hh]
    · cases hm : y.m_rd_is_mine <;> simp [List.count_cons]
    · intro h
      cases hm : y.m_rd_is_mine <;> simp

/-- Example of `teardown_once`: on the accepted stream, `shutdown()`, a run of the
cancel handlers, `disconnect()` and `shutdown()` again, followed by the handlers. -/
theorem teardown_once_witness :
    (accepted_stream true).m_writer = some 1 ∧
    (accepted_stream true).m_reader = some 2 ∧
    (since (accepted_stream true)
      (run_handlers (run_steps (accepted_stream true) 1 2
        [teardown_step.call teardown_call.shutdown, teardown_step.handlers,
          teardown_step.call teardown_call.disconnect,
          teardown_step.call teardown_call.shutdown]) 1 2)).count (effect.sys_close 5) = 1 ∧
    (since (accepted_stream true)
      (run_handlers (run_steps (accepted_stream true) 1 2
        [teardown_step.call teardown_call.shutdown, teardown_step.handlers,
          teardown_step.call teardown_call.disconnect,
          teardown_step.call teardown_call.shutdown]) 1 2)).count
        (effect.delete_array 1000) = 1 := by
  have h := (teardown_once (accepted_stream true)).2.2 1 2
    { m_handle := 5, m_source := { resumed := false, cancelled := false } }
    { m_handle := 6, m_source := { resumed := true, cancelled := false },
      m_rd_data := 1000, m_rd_size := 16, m_rd_is_mine := true }
    [teardown_step.call teardown_call.shutdown, teardown_step.handlers,
      teardown_step.call teardown_call.disconnect,
      teardown_step.call teardown_call.shutdown]
    rfl rfl rfl rfl rfl rfl (by decide) (by decide)
    ⟨teardown_call.shutdown, by simp⟩
  exact ⟨rfl, rfl, h.2.2.1, h.2.2.2.2.1⟩

/-! ## The server -/

theorem server_loop_eq (m_handle : handle) (cb : Bool) (os : Nat → accept_os) :
    ∀ (k i : Nat), server_loop m_handle cb os i k =
      (List.range' i k).flatMap (fun j => server_accept_one m_handle cb (os j)) := by
  intro k
  induction k with
  | zero => intro i; rfl
  | succ k ih =>
    intro i
    rw [List.range'_succ, List.flatMap_cons, ← ih (i + 1)]
    rfl

theorem server_accept_one_accepts (m_handle : handle) (cb : Bool) (o : accept_os) :
    (server_accept_one m_handle cb o).countP server_effect.is_accept = 1 := by
  rcases o with ⟨clt, f, r⟩
  cases cb <;> cases f <;> rcases r with (_ | _) | _ <;>
    simp [server_accept_one, List.countP_cons, server_effect.is_accept]

theorem server_loop_accepts (m_handle : handle) (cb : Bool) (os : Nat → accept_os) :
    ∀ (k i : Nat), (server_loop m_handle cb os i k).countP server_effect.is_accept = k := by
  intro k
  induction k with
  | zero => intro i; rfl
  | succ k ih =>
    intro i
    show (server_accept_one m_handle cb (os i) ++ server_loop m_handle cb os (i + 1) k).countP
      server_effect.is_accept = k + 1
    rw [List.countP_append, server_accept_one_accepts, ih (i + 1)]
    omega

theorem server_accept_one_closes (m_handle : handle) (cb : Bool) (o : accept_os) (h : handle)
    (hmem : server_effect.sys_close h ∈ server_accept_one m_handle cb o) : h = o.clt := by
  rcases o with ⟨clt, f, r⟩
  revert hmem
  cases cb <;> cases f <;> rcases r with (_ | _) | _ <;> simp [server_accept_one]

/-- When no other iteration of the event accepts the same handle value, the closes of
the handle of iteration `i` in the whole event are those of iteration `i`. -/
theorem server_loop_closes (m_handle : handle) (cb : Bool) (os : Nat → accept_os) (i : Nat) :
    ∀ (k s : Nat), (∀ j, s ≤ j → j < s + k → (os j).clt = (os i).clt → j = i) →
      (server_loop m_handle cb os s k).count (server_effect.sys_close (os i).clt) =
        if s ≤ i ∧ i < s + k then
          (server_accept_one m_handle cb (os i)).count (server_effect.sys_close (os i).clt)
        else 0 := by
  intro k
  induction k with
  | zero =>
    intro s _
    have h1 : ¬ (s ≤ i ∧ i < s + 0) := by omega
    rw [if_neg h1]
    rfl
  | succ k ih =>
    intro s hinj
    show (server_accept_one m_handle cb (os s) ++ server_loop m_handle cb os (s + 1) k).count
      (server_effect.sys_close (os i).clt) = _
    rw [List.count_append, ih (s + 1) (fun j h1 h2 h3 => hinj j (by omega) (by omega) h3)]
    by_cases hsi : s = i
    · have h1 : ¬ (s + 1 ≤ i ∧ i < s + 1 + k) := by omega
      have h2 : s ≤ i ∧ i < s + (k + 1) := by omega
      rw [if_neg h1, if_pos h2, hsi]
      rfl
    · have h0 : (server_accept_one m_handle cb (os s)).count
          (server_effect.sys_close (os i).clt) = 0 := by
        apply List.count_eq_zero_of_not_mem
        intro hmem
        have h3 := server_accept_one_closes m_handle cb (os s) _ hmem
        exact hsi (hinj s (by omega) (by omega) h3.symm)
      rw [h0]
      by_cases h1 : s + 1 ≤ i ∧ i < s + 1 + k
      · have h2 : s ≤ i ∧ i < s + (k + 1) := by omega
        rw [if_pos h1, if_pos h2]
        omega
      · have h2 : ¬ (s ≤ i ∧ i < s + (k + 1)) := by omega
        rw [if_neg h1, if_neg h2]

/-- C11. For every readable event of the server with data count `size` and every
outcome of the `on_connect` calls, the server makes exactly `size` accepts, one at the
head of each iteration. Within its iteration (and within the whole event, when no
other iteration accepts the same handle value) an accepted handle is closed by the
server, exactly once, if and only if the callback reference is dead, `on_connect`
returned false, `on_connect` threw, or the peer address family is neither IPv4 nor
IPv6; no other handle is closed there. A handle for which `on_connect` returned true is
not closed by the server, and `on_connect` is not invoked when the callback reference is
dead (nor for an address of another family). -/
theorem server_accepts (m_handle : handle) (cb : Bool) (size : Nat) (os : Nat → accept_os) :
    server_on_event m_handle cb size os =
      (List.range size).flatMap (fun i => server_accept_one m_handle cb (os i)) ∧
    (server_on_event m_handle cb size os).countP server_effect.is_accept = size ∧
    ∀ i : Nat,
      (server_accept_one m_handle cb (os i)).head? =
        some (server_effect.sys_accept m_handle (os i).clt) ∧
      (server_accept_one m_handle cb (os i)).countP server_effect.is_accept = 1 ∧
      ((server_accept_one m_handle cb (os i)).count (server_effect.sys_close (os i).clt) = 1 ↔
        (cb = false ∨ (os i).on_connect = on_connect_result.returned false ∨
          (os i).on_connect = on_connect_result.threw ∨
          (os i).ss_family = peer_family.other)) ∧
      (server_accept_one m_handle cb (os i)).count (server_effect.sys_close (os i).clt) ≤ 1 ∧
      (∀ h, server_effect.sys_close h ∈ server_accept_one m_handle cb (os i) →
        h = (os i).clt) ∧
      (cb = true → (os i).ss_family ≠ peer_family.other →
        (os i).on_connect = on_connect_result.returned true →
        ∀ h, server_effect.sys_close h ∉ server_accept_one m_handle cb (os i)) ∧
      (cb = false → ∀ h f, server_effect.on_connect h f ∉ server_accept_one m_handle cb (os i)) ∧
      (∀ h f, server_effect.on_connect h f ∈ server_accept_one m_handle cb (os i) →
        cb = true ∧ h = (os i).clt ∧ f = (os i).ss_family ∧ f ≠ peer_family.other) ∧
      (i < size → (∀ j, j < size → (os j).clt = (os i).clt → j = i) →
        (server_on_event m_handle cb size os).count (server_effect.sys_close (os i).clt) =
          (server_accept_one m_handle cb (os i)).count
            (server_effect.sys_close (os i).clt)) := by
  refine ⟨?_, server_loop_accepts m_handle cb os size 0, ?_⟩
  · rw [List.range_eq_range']
    exact server_loop_eq m_handle cb os size 0
  · intro i
    refine ⟨?_, ?_, ?_, ?_, ?_, ?_, ?_, ?_, ?_⟩
    case refine_9 =>
      intro hi hinj
      have h1 := server_loop_closes m_handle cb os i size 0
        (fun j _ h2 h3 => hinj j (by omega) h3)
      have h2 : 0 ≤ i ∧ i < 0 + size := by omega
      rw [if_pos h2] at h1
      exact h1
    all_goals
    rcases os i with ⟨clt, f, r⟩
    all_goals
    cases cb <;> cases f <;> rcases r with (_ | _) | _ <;>
      simp [server_accept_one, List.countP_cons, List.count_cons, server_effect.is_accept]

/-! ## The read path -/

/-- A read-readiness event with non-zero data count on a stream whose callback object
is alive: the calls it logs and the read context it leaves. -/
theorem on_rd_event_data (w : world) (ctx : ptr) (self : rd_context) (size : Nat)
    (read_ret : Int) (cb : on_read_result)
    (hx : w.readers ctx = some self) (hs : size ≠ 0) (hh : w.m_handler = true) :
    on_rd_event w ctx size read_ret cb =
      { w with
        readers :=
          match cb with
          | none => w.readers
          | some (b, s) =>
            if b ≠ self.m_rd_data then
              heap_set w.readers ctx
                (some { self with m_rd_is_mine := false, m_rd_data := b, m_rd_size := s })
            else w.readers
        log := w.log ++
          ([effect.sys_read self.m_handle self.m_rd_data self.m_rd_size read_ret,
            effect.on_read self.m_rd_data (to_size_t read_ret)] ++
            match cb with
            | none => []
            | some (b, _) =>
              if b ≠ self.m_rd_data ∧ self.m_rd_is_mine = true then
                [effect.delete_array self.m_rd_data]
              else []) } := by
  rcases cb with _ | ⟨b, s⟩
  · simp [on_rd_event, hx, hs, hh, world.emit]
  · by_cases hb : b = self.m_rd_data <;> cases hm : self.m_rd_is_mine <;>
      simp [on_rd_event, hx, hs, hh, world.emit, hb, hm]

/-- C12. For every read event with non-zero data count whose `on_read` callback is
invoked (the callback object is alive): `on_read` receives the context's buffer. If it
returns with a buffer pointer that differs from the context's current buffer, the
context's buffer becomes that pointer, its capacity becomes the returned size, its
ownership flag becomes false, and the old buffer is released if and only if it was
library-owned. If it returns the current buffer, then buffer, capacity and ownership
flag are unchanged whatever the returned size is, and nothing is released. If it
throws, the event handler still returns, and buffer, capacity and ownership flag are
unchanged. In every case the state, the two pointers, the other read contexts and the
write contexts are untouched. -/
theorem read_callback_buffer (w : world) (ctx : ptr) (self : rd_context) (size : Nat)
    (read_ret : Int) (cb : on_read_result)
    (hx : w.readers ctx = some self) (hs : size ≠ 0) (hh : w.m_handler = true)
    (w2 : world) (h2 : w2 = on_rd_event w ctx size read_ret cb) :
    (since w w2).count (effect.on_read self.m_rd_data (to_size_t read_ret)) = 1 ∧
    (∀ b s, cb = some (b, s) → b ≠ self.m_rd_data →
      w2.readers ctx =
        some { self with m_rd_data := b, m_rd_size := s, m_rd_is_mine := false } ∧
      (since w w2).count (effect.delete_array self.m_rd_data) =
        (if self.m_rd_is_mine then 1 else 0)) ∧
    (∀ s, cb = some (self.m_rd_data, s) →
      w2.readers ctx = some self ∧ ∀ bf, effect.delete_array bf ∉ since w w2) ∧
    (cb = none → w2.readers ctx = some self ∧ ∀ bf, effect.delete_array bf ∉ since w w2) ∧
    w2.m_state = w.m_state ∧ w2.m_reader = w.m_reader ∧ w2.m_writer = w.m_writer ∧
    w2.writers = w.writers ∧ (∀ p, p ≠ ctx → w2.readers p = w.readers p) := by
  have hw2 := on_rd_event_data w ctx self size read_ret cb hx hs hh
  rw [← h2] at hw2
  have hsince := since_of_log_eq w w2 _ (congrArg world.log hw2)
  rw [hsince, hw2]
  refine ⟨?_, ?_, ?_, ?_, rfl, rfl, rfl, rfl, ?_⟩
  · rcases cb with _ | ⟨b, s⟩
    · simp [List.count_cons]
    · by_cases hb : b = self.m_rd_data <;> cases hm : self.m_rd_is_mine <;>
        simp [List.count_cons, hb]
  · intro b s hcb hb
    subst hcb
    cases hm : self.m_rd_is_mine <;> simp [hb, heap_set, List.count_cons]
  · intro s hcb
    subst hcb
    simp [hx]
  · intro hcb
    subst hcb
    simp [hx]
  · intro p hp
    rcases cb with _ | ⟨b, s⟩
    · rfl
    · by_cases hb : b = self.m_rd_data <;> simp [hb, heap_set, hp]

/-- Witness of C12: on the accepted stream (library-owned buffer at address 1000,
capacity 16) a read of 5 bytes whose callback hands in a buffer at address 2000 of
size 64. -/
theorem read_callback_buffer_witness :
    (accepted_stream true).m_handler = true ∧
    (on_rd_event (accepted_stream true) 2 5 5 (some (2000, 64))).readers 2 =
      some { m_handle := 6, m_source := { resumed := true, cancelled := false },
             m_rd_data := 2000, m_rd_size := 64, m_rd_is_mine := false } ∧
    (since (accepted_stream true)
      (on_rd_event (accepted_stream true) 2 5 5 (some (2000, 64)))).count
        (effect.delete_array 1000) = 1 := by
  have h := (read_callback_buffer (accepted_stream true) 2
    { m_handle := 6, m_source := { resumed := true, cancelled := false },
      m_rd_data := 1000, m_rd_size := 16, m_rd_is_mine := true } 5 5 (some (2000, 64))
    rfl (by decide) rfl _ rfl).2.1 2000 64 rfl (by decide)
  exact ⟨rfl, h.1, h.2⟩

/-- C18 (code defect). For a read event with non-zero data count on a stream whose
callback object is alive, the size passed to `on_read` is the result of `::read`
converted to `std::size_t`. When `::read` succeeds with a result between 0 and the
capacity, that is the number of bytes read and does not exceed the capacity. When
`::read` fails and returns `-1`, the size passed is `2^64 - 1`, which exceeds every
capacity below it. -/
theorem read_size_passed (w : world) (ctx : ptr) (self : rd_context) (size : Nat)
    (read_ret : Int) (cb : on_read_result)
    (hx : w.readers ctx = some self) (hs : size ≠ 0) (hh : w.m_handler = true) :
    (∀ bf n, effect.on_read bf n ∈ since w (on_rd_event w ctx size read_ret cb) →
      bf = self.m_rd_data ∧ n = to_size_t read_ret) ∧
    (0 ≤ read_ret → read_ret ≤ self.m_rd_size → self.m_rd_size < 2 ^ 64 →
      to_size_t read_ret = read_ret.toNat ∧ to_size_t read_ret ≤ self.m_rd_size) ∧
    (read_ret = -1 →
      effect.on_read self.m_rd_data (2 ^ 64 - 1) ∈ since w (on_rd_event w ctx size read_ret cb) ∧
      (self.m_rd_size < 2 ^ 64 - 1 → self.m_rd_size < to_size_t read_ret)) := by
  have hw2 := on_rd_event_data w ctx self size read_ret cb hx hs hh
  have hsince := since_of_log_eq w _ _ (congrArg world.log hw2)
  rw [hsince]
  refine ⟨?_, ?_, ?_⟩
  · intro bf n
    rcases cb with _ | ⟨b, s⟩
    · simp
    · by_cases hb : b = self.m_rd_data <;> cases hm : self.m_rd_is_mine <;> simp [hb]
  · intro h0 h1 h2
    have h3 : to_size_t read_ret = read_ret.toNat := to_size_t_of_nonneg read_ret h0 (by omega)
    rw [h3]
    exact ⟨rfl, by omega⟩
  · intro hr
    subst hr
    rw [to_size_t_neg_one]
    exact ⟨by simp, fun h => h⟩

/-- Witness of C18: on the accepted stream, whose read buffer has capacity 16, a read
event with data count 5 whose `::read` returns `-1` calls `on_read` with size
18446744073709551615. -/
theorem read_size_passed_witness :
    (accepted_stream true).m_handler = true ∧
    ((accepted_stream true).readers 2).map (fun y => y.m_rd_size) = some 16 ∧
    since (accepted_stream true) (on_rd_event (accepted_stream true) 2 5 (-1) none) =
      [effect.sys_read 6 1000 16 (-1), effect.on_read 1000 18446744073709551615] ∧
    effect.on_read 1000 (2 ^ 64 - 1) ∈
      since (accepted_stream true) (on_rd_event (accepted_stream true) 2 5 (-1) none) :=
  ⟨rfl, rfl, by decide,
    ((read_size_passed (accepted_stream true) 2
      { m_handle := 6, m_source := { resumed := true, cancelled := false },
        m_rd_data := 1000, m_rd_size := 16, m_rd_is_mine := true } 5 (-1) none
      rfl (by decide) rfl).2.2 rfl).1⟩

/-! ## A failed `::write` -/

/-- A write-readiness event in state connected whose `::write` returns `-1`. -/
theorem process_write_event_failed (w : world) (c : ptr) (x : context) (size : Nat)
    (hx : w.writers c = some x) (hsz : w.m_wr_size < 2 ^ 64) (hpos : w.m_wr_pos ≤ w.m_wr_size) :
    process_write_event w c size (-1) =
      if w.m_wr_pos = 0 then
        { w with
          m_wr_pos := 2 ^ 64 - 1
          m_wr_busy := false
          writers := heap_set w.writers c
            (some { x with m_source := { x.m_source with resumed := false } })
          log := w.log ++ ([effect.sys_write x.m_handle (w.m_wr_data + w.m_wr_pos)
            ((w.m_wr_size + 2 ^ 64 - w.m_wr_pos) % 2 ^ 64) (-1), effect.source_suspend c] ++
            if w.m_handler then [effect.on_write w.m_wr_data w.m_wr_size] else []) }
      else
        { w with
          m_wr_pos := w.m_wr_pos - 1
          log := w.log ++ [effect.sys_write x.m_handle (w.m_wr_data + w.m_wr_pos)
            ((w.m_wr_size + 2 ^ 64 - w.m_wr_pos) % 2 ^ 64) (-1)] } := by
  by_cases h0 : w.m_wr_pos = 0
  · have h1 : (w.m_wr_pos + to_size_t (-1)) % 2 ^ 64 = 2 ^ 64 - 1 := by
      rw [to_size_t_neg_one, h0]
      decide
    have h2 : w.m_wr_size ≤ 2 ^ 64 - 1 := by omega
    rw [if_pos h0]
    simp only [process_write_event, hx, world.emit, h1, wr_suspend, ge_iff_le, h2, if_true]
    cases hh : w.m_handler <;> simp
  · have h1 : (w.m_wr_pos + to_size_t (-1)) % 2 ^ 64 = w.m_wr_pos - 1 := by
      rw [to_size_t_neg_one]
      omega
    have h2 : ¬ (w.m_wr_size ≤ w.m_wr_pos - 1) := by omega
    rw [if_neg h0]
    simp only [process_write_event, hx, world.emit, h1, ge_iff_le, h2, if_false]

/-- C17 (code defect). For an in-flight write of size `n` at offset `p`, a
write-readiness event whose `::write` fails and returns `-1` adds `2^64 - 1` to the
offset modulo `2^64`. At offset 0 the offset becomes `2^64 - 1`, which is not below
`n`: the write source is suspended, the busy flag is cleared and `on_write(data, n)` is
invoked (when the callback object is alive) although no byte was transferred. At an
offset above 0 the offset moves back by one, the busy flag is kept and `on_write` is not
invoked. -/
theorem write_failure_event (b : build) (w : world) (c : ptr) (x : context) (size : Nat)
    (os : wr_event_os)
    (hs : w.m_state = state.connected) (hx : w.writers c = some x)
    (hret : os.write_ret = -1)
    (hsz : w.m_wr_size < 2 ^ 64) (hpos : w.m_wr_pos ≤ w.m_wr_size)
    (w2 : world) (h2 : w2 = on_wr_event b w c size os) :
    (w.m_wr_pos = 0 →
      w2.m_wr_pos = 2 ^ 64 - 1 ∧ w2.m_wr_busy = false ∧
      (w2.writers c).map (fun v => v.m_source.resumed) = some false ∧
      (since w w2).count (effect.source_suspend c) = 1 ∧
      (since w w2).count (effect.on_write w.m_wr_data w.m_wr_size) =
        (if w.m_handler then 1 else 0)) ∧
    (0 < w.m_wr_pos →
      w2.m_wr_pos = w.m_wr_pos - 1 ∧ w2.m_wr_busy = w.m_wr_busy ∧
      (∀ d n, effect.on_write d n ∉ since w w2)) := by
  rw [on_wr_event_connected b w c x size os hs hx, hret,
    process_write_event_failed w c x size hx hsz hpos] at h2
  constructor
  · intro h0
    rw [if_pos h0] at h2
    have hsince := since_of_log_eq w w2 _ (congrArg world.log h2)
    rw [hsince, h2]
    refine ⟨rfl, rfl, by simp [heap_set], ?_, ?_⟩
    · cases hh : w.m_handler <;> simp [List.count_cons]
    · cases hh : w.m_handler <;> simp [List.count_cons]
  · intro h0
    rw [if_neg (by omega)] at h2
    have hsince := since_of_log_eq w w2 _ (congrArg world.log h2)
    rw [hsince, h2]
    refine ⟨rfl, rfl, ?_⟩
    intro d n
    simp

/-- Witness of C17: on the accepted stream a write of 10 bytes is accepted and the
first write-readiness event finds `::write` failing: `on_write(77, 10)` is delivered.
After an event that transferred 3 bytes, a failing `::write` moves the offset to 2. -/
theorem write_failure_event_witness :
    (write (accepted_stream true) 77 10).2 = outcome.returned ∧
    since (write (accepted_stream true) 77 10).1
      (on_wr_event osx_build (write (accepted_stream true) 77 10).1 1
        (wrote (-1)).1 (wrote (-1)).2) =
      [effect.sys_write 5 77 10 (-1), effect.source_suspend 1, effect.on_write 77 10] ∧
    (on_wr_event osx_build (write (accepted_stream true) 77 10).1 1
      (wrote (-1)).1 (wrote (-1)).2).m_wr_busy = false ∧
    (on_wr_event osx_build
      (on_wr_event osx_build (write (accepted_stream true) 77 10).1 1 (wrote 3).1 (wrote 3).2)
      1 (wrote (-1)).1 (wrote (-1)).2).m_wr_pos = 2 := by
  have h := (write_failure_event osx_build (write (accepted_stream true) 77 10).1 1
    { m_handle := 5, m_source := { resumed := true, cancelled := false } }
    (wrote (-1)).1 (wrote (-1)).2 rfl rfl rfl (by decide) (by decide) _ rfl).1 rfl
  exact ⟨rfl, by decide, h.2.1, by decide⟩

/-! ## State connected without a write source -/

/-- C16 (code defect). `shutdown()` on a connected stream clears the writer pointer
and leaves the state connected, so state connected does not imply a non-null writer
pointer, and a `write` issued next (with the busy flag clear) dereferences the null
pointer. -/
theorem shutdown_leaves_connected (w : world) (hs : w.m_state = state.connected)
    (hb : w.m_wr_busy = false) :
    (shutdown w).m_state = state.connected ∧ (shutdown w).m_writer = none ∧
    ∀ data size, (write (shutdown w) data size).2 = outcome.null_deref := by
  obtain ⟨d, _, hd⟩ := shutdown_frame w
  have h1 : (shutdown w).m_state = state.connected := by rw [hd]; exact hs
  have h2 : (shutdown w).m_writer = none := by rw [hd]
  have h3 : (shutdown w).m_wr_busy = false := by rw [hd]; exact hb
  refine ⟨h1, h2, ?_⟩
  intro data size
  simp [write, h1, h2, h3]

/-- Witness of C16: a stream created on an accepted handle, `shutdown()`, `write`. -/
theorem shutdown_leaves_connected_witness :
    (stream_new true true).m_state = state.disconnected ∧
    (init_handle osx_build (stream_new true true) 5 0 16 0 6 1000).2 = outcome.returned ∧
    (accepted_stream true).m_state = state.connected ∧
    (accepted_stream true).m_writer = some 1 ∧
    (shutdown (accepted_stream true)).m_state = state.connected ∧
    (shutdown (accepted_stream true)).m_writer = none ∧
    (write (shutdown (accepted_stream true)) 77 10).2 = outcome.null_deref := by
  have h := shutdown_leaves_connected (accepted_stream true) rfl rfl
  exact ⟨rfl, rfl, rfl, rfl, h.1, h.2.1, h.2.2 77 10⟩

/-! ## Cancel handlers -/

/-- C15 (code defect). The cancel handler of a source context closes the handle of the
context, releases the read buffer of a read context if and only if it is library-owned,
and deletes the context, leaving the other contexts alone. It sets the writer
(respectively reader) pointer of the stream to null whatever that pointer referred to:
a pointer to a context created later is cleared too. -/
theorem cancel_handler_detaches (w : world) :
    (∀ (c : ptr) (x : context), w.writers c = some x →
      since w (on_wr_cancel w c) =
        [effect.source_release c, effect.sys_close x.m_handle, effect.delete_context c] ∧
      (on_wr_cancel w c).writers c = none ∧
      (∀ p, p ≠ c → (on_wr_cancel w c).writers p = w.writers p) ∧
      (on_wr_cancel w c).m_writer = none ∧
      (on_wr_cancel w c).m_reader = w.m_reader ∧
      (on_wr_cancel w c).m_state = w.m_state) ∧
    (∀ (r : ptr) (y : rd_context), w.readers r = some y →
      since w (on_rd_cancel w r) =
        [effect.source_release r, effect.sys_close y.m_handle] ++
          (if y.m_rd_is_mine then [effect.delete_array y.m_rd_data] else []) ++
          [effect.delete_context r] ∧
      (on_rd_cancel w r).readers r = none ∧
      (∀ p, p ≠ r → (on_rd_cancel w r).readers p = w.readers p) ∧
      (on_rd_cancel w r).m_reader = none ∧
      (on_rd_cancel w r).m_writer = w.m_writer ∧
      (on_rd_cancel w r).m_state = w.m_state) := by
  constructor
  · intro c x hx
    refine ⟨by simp [on_wr_cancel, hx, world.emit, since], by simp [on_wr_cancel, hx, heap_set],
      ?_, by simp [on_wr_cancel, hx], by simp [on_wr_cancel, hx, world.emit],
      by simp [on_wr_cancel, hx, world.emit]⟩
    intro p hp
    simp [on_wr_cancel, hx, heap_set, hp, world.emit]
  · intro r y hy
    cases hm : y.m_rd_is_mine
    · refine ⟨by simp [on_rd_cancel, hy, world.emit, since, hm],
        by simp [on_rd_cancel, hy, heap_set, hm], ?_, by simp [on_rd_cancel, hy, hm],
        by simp [on_rd_cancel, hy, world.emit, hm], by simp [on_rd_cancel, hy, world.emit, hm]⟩
      intro p hp
      simp [on_rd_cancel, hy, heap_set, hp, world.emit, hm]
    · refine ⟨by simp [on_rd_cancel, hy, world.emit, since, hm],
        by simp [on_rd_cancel, hy, heap_set, hm], ?_, by simp [on_rd_cancel, hy, hm],
        by simp [on_rd_cancel, hy, world.emit, hm], by simp [on_rd_cancel, hy, world.emit, hm]⟩
      intro p hp
      simp [on_rd_cancel, hy, heap_set, hp, world.emit, hm]

/-- Witness of C15: after `disconnect()` and a new `connect` the writer pointer refers
to the new write context at address 3; the cancel handler of the old write context at
address 1 closes handle 5 and clears the pointer, while the new context stays
registered with libdispatch. When its connect then completes, the stream is connected
with a null writer pointer and `write` dereferences it. -/
theorem cancel_handler_detaches_witness :
    reconnecting_stream.m_state = state.connecting ∧
    reconnecting_stream.m_writer = some 3 ∧
    reconnecting_stream.writers 1 =
      some { m_handle := 5, m_source := { resumed := true, cancelled := true } } ∧
    (dispatch_wr_cancel reconnecting_stream 1).m_writer = none ∧
    (dispatch_wr_cancel reconnecting_stream 1).writers 3 =
      some { m_handle := 7, m_source := { resumed := true, cancelled := false } } ∧
    (on_wr_event osx_build (dispatch_wr_cancel reconnecting_stream 1) 3 131228
      dup_six).m_state = state.connected ∧
    (write (on_wr_event osx_build (dispatch_wr_cancel reconnecting_stream 1) 3 131228
      dup_six) 77 10).2 = outcome.null_deref := by
  have h := (cancel_handler_detaches reconnecting_stream).1 1
    { m_handle := 5, m_source := { resumed := true, cancelled := true } } rfl
  exact ⟨rfl, rfl, rfl, h.2.2.2.1, by decide, by decide, by decide⟩

/-! ## Connect completion without a runner -/

/-- A write-readiness event that reports connect success in state connecting, with a
successful `::dup`, after the runner was released. -/
theorem connect_event_runner_gone (b : build) (w : world) (c : ptr) (x : context) (s : Nat)
    (os : wr_event_os) (hs : w.m_state = state.connecting) (hex : w.m_executor = false)
    (hdup : os.dup_ret ≠ invalid_handle)
    (hw : w.m_writer = some c) (hx : w.writers c = some x)
    (hf : (if b.linux_target then decide (s ≠ 0) else decide (s ≤ 2048)) = false) :
    on_wr_event b w c s os =
      { w with
        m_state := state.disconnected
        m_writer := none
        writers := heap_set w.writers c
          (some { m_handle := x.m_handle, m_source := { resumed := true, cancelled := true } })
        log := w.log ++ ([effect.source_suspend c, effect.sys_dup x.m_handle os.dup_ret,
          effect.source_resume c, effect.source_cancel c] ++
          if w.m_handler then
            [effect.on_event event.failure_detected
              (error_code.code exc.runner_not_available)]
          else []) } := by
  simp only [on_wr_event, hx, hs, process_connect_event, hf]
  cases hh : w.m_handler <;>
    simp [wr_suspend, hx, hdup, create_read_source, hex, world.emit, cancel_write_source, hw,
      wr_resume, wr_cancel, heap_set_same, heap_set_set, hh]

/-- C13 (code defect). For a stream in state connecting whose runner has been
released, a write-readiness event of its write source that reports connect success
(with a successful `::dup`) ends with the state disconnected and the failure surfaced
as `runner_not_available` through `on_event(failure_detected, code)` when the callback
object is alive; the write source is cancelled and its cancel handler closes the socket
handle. The duplicate made for the read source is never closed: `create_read_source`
throws before any context takes it, the handler of the exception does not close it, and
after the cancel handler has run no context of the stream holds it. -/
theorem runner_gone_connect (b : build) (w : world) (c : ptr) (x : context) (s : Nat)
    (os : wr_event_os)
    (hs : w.m_state = state.connecting) (hex : w.m_executor = false)
    (hdup : os.dup_ret ≠ invalid_handle)
    (hw : w.m_writer = some c) (hx : w.writers c = some x)
    (hsucc : (b.linux_target = true ∧ s = 0) ∨ (b.linux_target = false ∧ 2048 < s))
    (hne : os.dup_ret ≠ x.m_handle)
    (w2 w3 : world) (h2 : w2 = on_wr_event b w c s os) (h3 : w3 = dispatch_wr_cancel w2 c) :
    w2.m_state = state.disconnected ∧
    (since w w2).count
      (effect.on_event event.failure_detected (error_code.code exc.runner_not_available)) =
      (if w.m_handler then 1 else 0) ∧
    (∀ e cd, effect.on_event e cd ∈ since w w2 →
      e = event.failure_detected ∧ cd = error_code.code exc.runner_not_available) ∧
    (since w w2).count (effect.source_cancel c) = 1 ∧
    (since w w3).count (effect.sys_close x.m_handle) = 1 ∧
    w3.writers c = none ∧
    effect.sys_dup x.m_handle os.dup_ret ∈ since w w3 ∧
    effect.sys_close os.dup_ret ∉ since w w3 ∧
    w3.m_reader = w.m_reader ∧ w3.readers = w.readers ∧
    w3.m_writer = none ∧ w3.m_state = state.disconnected := by
  have hf : (if b.linux_target then decide (s ≠ 0) else decide (s ≤ 2048)) = false := by
    rcases hsucc with ⟨h, h0⟩ | ⟨h, h0⟩
    · rw [h]; simp [h0]
    · rw [h]; simp; omega
  have hw2 := connect_event_runner_gone b w c x s os hs hex hdup hw hx hf
  rw [← h2] at hw2
  have hw3 : w3 =
      { w with
        m_state := state.disconnected
        m_writer := none
        writers := heap_set w.writers c none
        log := w.log ++ ([effect.source_suspend c, effect.sys_dup x.m_handle os.dup_ret,
          effect.source_resume c, effect.source_cancel c] ++
          (if w.m_handler then
            [effect.on_event event.failure_detected
              (error_code.code exc.runner_not_available)]
          else []) ++
          [effect.source_release c, effect.sys_close x.m_handle, effect.delete_context c]) } := by
    rw [h3, hw2]
    simp [dispatch_wr_cancel, on_wr_cancel, heap_set_same, heap_set_set, world.emit]
  have hs2 := since_of_log_eq w w2 _ (congrArg world.log hw2)
  have hs3 := since_of_log_eq w w3 _ (congrArg world.log hw3)
  rw [hs2, hs3, hw2, hw3]
  have hne2 : x.m_handle ≠ os.dup_ret := fun h => hne h.symm
  refine ⟨rfl, ?_, ?_, ?_, ?_, by simp [heap_set], ?_, ?_, rfl, rfl, rfl, rfl⟩
  · cases hh : w.m_handler <;> simp [List.count_cons]
  · intro e cd
    cases hh : w.m_handler <;> simp
  · cases hh : w.m_handler <;> simp [List.count_cons]
  · cases hh : w.m_handler <;> simp [List.count_cons]
  · simp
  · cases hh : w.m_handler <;> simp [hne]

/-- Witness of C13: the pending connect of the macOS build, the runner released, an
event with data count 131228 and `::dup` returning 6. Handle 5 is closed by the cancel
handler; handle 6 is duplicated and never closed. -/
theorem runner_gone_connect_witness :
    (orphaned_connecting_stream osx_build true).m_state = state.connecting ∧
    (orphaned_connecting_stream osx_build true).m_executor = false ∧
    since (orphaned_connecting_stream osx_build true)
      (dispatch_wr_cancel
        (on_wr_event osx_build (orphaned_connecting_stream osx_build true) 1 131228 dup_six)
        1) =
      [effect.source_suspend 1, effect.sys_dup 5 6, effect.source_resume 1,
        effect.source_cancel 1,
        effect.on_event event.failure_detected (error_code.code exc.runner_not_available),
        effect.source_release 1, effect.sys_close 5, effect.delete_context 1] ∧
    effect.sys_close 6 ∉
      since (orphaned_connecting_stream osx_build true)
        (dispatch_wr_cancel
          (on_wr_event osx_build (orphaned_connecting_stream osx_build true) 1 131228
            dup_six) 1) := by
  have h := runner_gone_connect osx_build (orphaned_connecting_stream osx_build true) 1
    connecting_writer 131228 dup_six rfl rfl (by decide) rfl rfl
    (Or.inr ⟨rfl, by decide⟩) (by decide) _ _ rfl rfl
  exact ⟨rfl, rfl, by decide, h.2.2.2.2.2.2.2.1⟩

/-! ## Task traits -/

theorem is_chain_cons (t1 t2 : task_type) (rest : List task_type) :
    is_chain (t1 :: t2 :: rest) =
      (decide (t1.result_type = t2.input_type) && is_chain (t2 :: rest)) := rfl

/-- The trait agrees with the adjacent-pair rule. -/
theorem is_chain_adjacent :
    ∀ (l : List task_type), is_chain l = true ↔
      ∀ (i : Nat) (t1 t2 : task_type), l[i]? = some t1 → l[i + 1]? = some t2 →
        t1.result_type = t2.input_type := by
  intro l
  induction l with
  | nil => simp [is_chain]
  | cons a rest ih =>
    cases rest with
    | nil => simp [is_chain]
    | cons b rest2 =>
      rw [is_chain_cons, Bool.and_eq_true, ih, decide_eq_true_iff]
      constructor
      · rintro ⟨h1, h2⟩ i t1 t2 hi hj
        cases i with
        | zero =>
          simp at hi hj
          rw [← hi, ← hj]
          exact h1
        | succ i =>
          exact h2 i t1 t2 (by simpa using hi) (by simpa using hj)
      · intro h
        refine ⟨h 0 a b (by simp) (by simp), ?_⟩
        intro i t1 t2 hi hj
        exact h (i + 1) t1 t2 (by simpa using hi) (by simpa using hj)

/-- The expectations of the unit test `BOOST_AUTO_TEST_CASE(is_chain)`, in its order. -/
theorem is_chain_unit_test :
    is_chain [C t_int t_int, C cpp_type.void t_int] = true ∧
    is_chain [C cpp_type.void t_int, C t_int cpp_type.void] = true ∧
    is_chain [C t_int t_double, C cpp_type.void t_int, C t_char cpp_type.void,
      C t_bool t_char, C t_double t_bool, C cpp_type.void t_double] = true ∧
    is_chain [C t_int t_double, C cpp_type.void t_int, C t_char cpp_type.void,
      C t_bool t_bool, C t_double t_bool, C cpp_type.void t_double] = false ∧
    is_chain [C t_int t_double, C cpp_type.void t_int, C t_char cpp_type.void] = true ∧
    is_chain [C t_int t_double, C t_int t_int, C t_char cpp_type.void] = false ∧
    is_chain [C t_int t_int, C t_int t_int, C t_int t_int, C t_int t_int, C t_int t_int,
      C t_int t_int] = true ∧
    is_chain [C t_int t_int, C t_int t_int, C t_int t_int, C t_int t_int, C t_int t_int,
      C t_int cpp_type.void] = false ∧
    is_chain [C t_int t_int, C t_int t_int, C t_int t_int, C t_int t_int,
      C t_int cpp_type.void, C t_int t_int] = false ∧
    is_chain [C t_int t_int, C t_int t_int, C t_int t_int, C t_int cpp_type.void,
      C t_int t_int, C t_int t_int] = false ∧
    is_chain [C t_int t_int, C t_int t_int, C t_int cpp_type.void, C t_int t_int,
      C t_int t_int, C t_int t_int] = false ∧
    is_chain [C t_int t_int, C t_int cpp_type.void, C t_int t_int, C t_int t_int,
      C t_int t_int, C t_int t_int] = false ∧
    is_chain [C t_int t_int, C t_int t_int, C t_int t_int, C t_int t_int,
      C cpp_type.void t_int, C t_int t_int] = false ∧
    is_chain [C t_int t_int, C t_int t_int, C t_int t_int, C cpp_type.void t_int,
      C t_int t_int, C t_int t_int] = false ∧
    is_chain [C t_int t_int, C t_int t_int, C cpp_type.void t_int, C t_int t_int,
      C t_int t_int, C t_int t_int] = false ∧
    is_chain [C t_int t_int, C cpp_type.void t_int, C t_int t_int, C t_int t_int,
      C t_int t_int, C t_int t_int] = false ∧
    is_chain [C cpp_type.void t_int, C t_int t_int, C t_int t_int, C t_int t_int,
      C t_int t_int, C t_int t_int] = false := by
  decide

/-- C14. For every list of task types `T1..Tn` (in particular every non-empty one),
`is_chain<T1, ..., Tn>::result::value` is true if and only if for every adjacent pair
the `result_type` of `Ti` is identical to the `input_type` of `Ti+1` (`void` is
identical to `void` only), and a single mismatch at any position makes it false. -/
theorem is_chain_iff (l : List task_type) :
    (is_chain l = true ↔
      ∀ (i : Nat) (h : i + 1 < l.length),
        (l.get ⟨i, Nat.lt_of_succ_lt h⟩).result_type = (l.get ⟨i + 1, h⟩).input_type) ∧
    (∀ (i : Nat) (h : i + 1 < l.length),
      (l.get ⟨i, Nat.lt_of_succ_lt h⟩).result_type ≠ (l.get ⟨i + 1, h⟩).input_type →
      is_chain l = false) := by
  have key : is_chain l = true ↔
      ∀ (i : Nat) (h : i + 1 < l.length),
        (l.get ⟨i, Nat.lt_of_succ_lt h⟩).result_type = (l.get ⟨i + 1, h⟩).input_type := by
    rw [is_chain_adjacent]
    constructor
    · intro h i hi
      exact h i _ _ (List.getElem?_eq_getElem (Nat.lt_of_succ_lt hi))
        (List.getElem?_eq_getElem hi)
    · intro h i t1 t2 h1 h2
      obtain ⟨hi, e1⟩ := List.getElem?_eq_some.mp h1
      obtain ⟨hj, e2⟩ := List.getElem?_eq_some.mp h2
      have h3 := h i hj
      simp only [List.get_eq_getElem] at h3
      rw [e1, e2] at h3
      exact h3
  refine ⟨key, ?_⟩
  intro i h hne
  cases hc : is_chain l
  · rfl
  · exact absurd (key.mp hc i h) hne

/-! ## Teardown of every source -/

/-- C10 (code defect). For every stream and every finite sequence of `shutdown()` and
`disconnect()` calls, each event source is cancelled at most once: the first call
clears both pointers and cancels what it finds, every later call logs nothing. A write
(read) source that the writer (reader) pointer refers to, on a stream where no other
write (read) context awaits its cancel handler and no read (write) context holds the
same handle, is torn down exactly once whatever the order of the calls and of the runs
of cancel handlers by libdispatch, and whether or not the other source exists: after at
least one call and the run of its cancel handler its handle was closed exactly once, a
library-owned read buffer was released exactly once (a caller-supplied one never), and
the context is deleted. A write source that is registered with libdispatch while the
writer pointer does not refer to it, as after `on_wr_cancel` of an older context has
cleared the pointer, is not reached by any sequence of calls and handler runs: it stays
registered and uncancelled, and its handle is never closed. -/
theorem teardown_calls (w : world) :
    (∀ (ks : List teardown_call) (p : ptr),
      (∀ q, w.m_reader = some q → w.m_writer ≠ some q) →
      (since w (run_calls w ks)).count (effect.source_cancel p) ≤ 1) ∧
    (∀ (k : teardown_call) (rest : List teardown_call),
      since w (run_calls w (k :: rest)) = since w (k.run w) ∧
      (run_calls w (k :: rest)).m_reader = none ∧
      (run_calls w (k :: rest)).m_writer = none) ∧
    (∀ (c : ptr) (x : context) (evs : List teardown_event),
      w.m_writer = some c → w.writers c = some x → x.m_source.cancelled = false →
      writer_alone c x.m_handle w → (∃ k, teardown_event.call k ∈ evs) →
      (since w (dispatch_wr_cancel (run_events w evs) c)).count
        (effect.sys_close x.m_handle) = 1 ∧
      (dispatch_wr_cancel (run_events w evs) c).writers c = none ∧
      (dispatch_wr_cancel (run_events w evs) c).m_writer = none) ∧
    (∀ (r : ptr) (y : rd_context) (evs : List teardown_event),
      w.m_reader = some r → w.readers r = some y → y.m_source.cancelled = false →
      reader_alone r y.m_handle w → (∃ k, teardown_event.call k ∈ evs) →
      (since w (dispatch_rd_cancel (run_events w evs) r)).count
        (effect.sys_close y.m_handle) = 1 ∧
      (since w (dispatch_rd_cancel (run_events w evs) r)).count
        (effect.delete_array y.m_rd_data) = (if y.m_rd_is_mine then 1 else 0) ∧
      (dispatch_rd_cancel (run_events w evs) r).readers r = none ∧
      (dispatch_rd_cancel (run_events w evs) r).m_reader = none) ∧
    (∀ (c : ptr) (x : context) (evs : List teardown_event),
      w.writers c = some x → x.m_source.cancelled = false → w.m_writer ≠ some c →
      (∀ p x2, p ≠ c → w.writers p = some x2 → x2.m_handle ≠ x.m_handle) →
      (∀ p y, w.readers p = some y → y.m_handle ≠ x.m_handle) →
      (run_events w evs).writers c = some x ∧
      (run_events w evs).m_writer ≠ some c ∧
      effect.sys_close x.m_handle ∉ since w (run_events w evs)) := by
  have hfirst : ∀ (k : teardown_call) (rest : List teardown_call),
      since w (run_calls w (k :: rest)) = since w (k.run w) ∧
      (run_calls w (k :: rest)).m_reader = none ∧
      (run_calls w (k :: rest)).m_writer = none := by
    intro k rest
    obtain ⟨h1, h2⟩ := call_clears w k
    obtain ⟨h3, h4, h5⟩ := run_calls_idle rest (k.run w) h1 h2
    rw [run_calls_cons]
    exact ⟨by simp only [since, h3], h4, h5⟩
  refine ⟨?_, hfirst, ?_, ?_, ?_⟩
  · intro ks p hdist
    cases ks with
    | nil =>
      show (since w w).count _ ≤ 1
      rw [since_self]
      simp
    | cons k rest =>
      rw [(hfirst k rest).1]
      exact call_cancels_once w k hdist p
  · intro c x evs hw hx hxc halone hcall
    have h0 : writer_phase w.log c x 0 w :=
      ⟨halone, [], by simp, Or.inl ⟨rfl, hw, hx, rfl⟩⟩
    obtain ⟨n2, _, h2, h3⟩ := writer_phase_run w.log c x hxc evs 0 w h0
    obtain ⟨_, d, hd, hph⟩ := writer_phase_finish w.log c x n2 _ h3 (h2 hcall)
    rw [since_of_log_eq w _ d hd]
    rcases hph with ⟨h4, _⟩ | ⟨h4, _⟩ | ⟨_, h5, h6, h7⟩
    · omega
    · omega
    · exact ⟨h7, h6, h5⟩
  · intro r y evs hr hy hyc halone hcall
    have h0 : reader_phase w.log r y 0 w :=
      ⟨halone, [], by simp, Or.inl ⟨rfl, hr, hy, rfl, rfl⟩⟩
    obtain ⟨n2, _, h2, h3⟩ := reader_phase_run w.log r y hyc evs 0 w h0
    obtain ⟨_, d, hd, hph⟩ := reader_phase_finish w.log r y n2 _ h3 (h2 hcall)
    rw [since_of_log_eq w _ d hd]
    rcases hph with ⟨h4, _⟩ | ⟨h4, _⟩ | ⟨_, h5, h6, h7, h8⟩
    · omega
    · omega
    · exact ⟨h7, h8, h6, h5⟩
  · intro c x evs hx hxc hw ha1 ha2
    have h0 : writer_orphaned w.log c x w := ⟨hx, hw, ha1, ha2, [], by simp, by simp⟩
    obtain ⟨h1, h2, _, _, d, hd, hcl⟩ := writer_orphaned_run w.log c x hxc evs w h0
    rw [since_of_log_eq w _ d hd]
    exact ⟨h1, h2, hcl⟩

/-- Witness of C10. The accepted stream after `disconnect()`, a new `connect` and the
cancel handler of the old write context: the new write context at address 3 (handle 7)
is registered and the writer pointer is null. Calls of `shutdown()` and `disconnect()`
and runs of the cancel handlers close handle 6 of the old read context and never handle
7. On a connecting stream, which has a write source only, a `shutdown()` and a
`disconnect()` followed by the cancel handler close handle 5 exactly once. -/
theorem teardown_calls_witness :
    (dispatch_wr_cancel reconnecting_stream 1).m_state = state.connecting ∧
    (dispatch_wr_cancel reconnecting_stream 1).m_writer = none ∧
    (dispatch_wr_cancel reconnecting_stream 1).writers 3 =
      some { m_handle := 7, m_source := { resumed := true, cancelled := false } } ∧
    since (dispatch_wr_cancel reconnecting_stream 1)
      (run_events (dispatch_wr_cancel reconnecting_stream 1)
        [teardown_event.call teardown_call.shutdown, teardown_event.rd_handler 2,
          teardown_event.call teardown_call.disconnect, teardown_event.wr_handler 3,
          teardown_event.call teardown_call.shutdown]) =
      [effect.source_release 2, effect.sys_close 6, effect.delete_array 1000,
        effect.delete_context 2] ∧
    (run_events (dispatch_wr_cancel reconnecting_stream 1)
      [teardown_event.call teardown_call.shutdown, teardown_event.rd_handler 2,
        teardown_event.call teardown_call.disconnect, teardown_event.wr_handler 3,
        teardown_event.call teardown_call.shutdown]).writers 3 =
      some { m_handle := 7, m_source := { resumed := true, cancelled := false } } ∧
    effect.sys_close 7 ∉
      since (dispatch_wr_cancel reconnecting_stream 1)
        (run_events (dispatch_wr_cancel reconnecting_stream 1)
          [teardown_event.call teardown_call.shutdown, teardown_event.rd_handler 2,
            teardown_event.call teardown_call.disconnect, teardown_event.wr_handler 3,
            teardown_event.call teardown_call.shutdown]) ∧
    (connecting_stream osx_build true).m_reader = none ∧
    (since (connecting_stream osx_build true)
      (dispatch_wr_cancel
        (run_events (connecting_stream osx_build true)
          [teardown_event.call teardown_call.shutdown,
            teardown_event.call teardown_call.disconnect]) 1)).count
        (effect.sys_close 5) = 1 := by
  have hws : ∀ p, (dispatch_wr_cancel reconnecting_stream 1).writers p =
      if p = 3 then some { m_handle := 7, m_source := { resumed := true, cancelled := false } }
      else none := by
    intro p
    by_cases h3 : p = 3
    · subst h3; rfl
    · by_cases h1 : p = 1
      · subst h1; rfl
      · simp [dispatch_wr_cancel, reconnecting_stream, connect, connect_try, disconnect,
          accepted_stream, init_handle, stream_new, create_write_source, create_read_source,
          cancel_write_source, cancel_read_source, wr_resume, wr_cancel, rd_resume, rd_cancel,
          on_wr_cancel, world.emit, heap_set, osx_build, pending_os_again, invalid_handle,
          h1, h3]
  have hrs : ∀ p, (dispatch_wr_cancel reconnecting_stream 1).readers p =
      if p = 2 then
        some { m_handle := 6, m_source := { resumed := true, cancelled := true },
               m_rd_data := 1000, m_rd_size := 16, m_rd_is_mine := true }
      else none := by
    intro p
    by_cases h2 : p = 2
    · subst h2; rfl
    · simp [dispatch_wr_cancel, reconnecting_stream, connect, connect_try, disconnect,
        accepted_stream, init_handle, stream_new, create_write_source, create_read_source,
        cancel_write_source, cancel_read_source, wr_resume, wr_cancel, rd_resume, rd_cancel,
        on_wr_cancel, world.emit, heap_set, osx_build, pending_os_again, invalid_handle, h2]
  have hcw : ∀ p, (connecting_stream osx_build true).writers p =
      if p = 1 then some connecting_writer else none := by
    intro p
    by_cases h1 : p = 1
    · subst h1; rfl
    · simp [connecting_stream, connect, connect_try, stream_new, create_write_source,
        wr_resume, world.emit, heap_set, osx_build, pending_os, invalid_handle, h1]
  have hcr : ∀ p, (connecting_stream osx_build true).readers p = none := by
    intro p
    simp [connecting_stream, connect, connect_try, stream_new, create_write_source,
      wr_resume, world.emit, heap_set, osx_build, pending_os, invalid_handle]
  have h := (teardown_calls (dispatch_wr_cancel reconnecting_stream 1)).2.2.2.2 3
    { m_handle := 7, m_source := { resumed := true, cancelled := false } }
    [teardown_event.call teardown_call.shutdown, teardown_event.rd_handler 2,
      teardown_event.call teardown_call.disconnect, teardown_event.wr_handler 3,
      teardown_event.call teardown_call.shutdown]
    rfl rfl (by decide)
    (by
      intro p x2 hp hx2
      rw [hws p, if_neg hp] at hx2
      cases hx2)
    (by
      intro p y hy
      rw [hrs p] at hy
      by_cases h2 : p = 2
      · rw [if_pos h2] at hy
        cases hy
        decide
      · rw [if_neg h2] at hy
        cases hy)
  have hca : writer_alone 1 connecting_writer.m_handle (connecting_stream osx_build true) := by
    constructor
    · intro p x2 hp hx2
      rw [hcw p, if_neg hp] at hx2
      cases hx2
    · intro p y hy
      rw [hcr p] at hy
      cases hy
  have h2 := (teardown_calls (connecting_stream osx_build true)).2.2.1 1 connecting_writer
    [teardown_event.call teardown_call.shutdown, teardown_event.call teardown_call.disconnect]
    rfl rfl rfl hca ⟨teardown_call.shutdown, by simp⟩
  exact ⟨rfl, rfl, rfl, by decide, h.1, h.2.2, rfl, h2.1⟩

end CoolNg
